import Mathlib

/-!
Verification of the source synchronizer (`git-source-provider.ts`).

The program is embedded shallowly: effects are explicit state passing over a
`World` record, external collaborators (git command manager, filesystem, ref
helper, REST download client) are an `Env` oracle of call results, and fallible
steps return `Except Err`.  The definitions mirror the source file function by
function; theorems about the claims follow at the end.
-/

namespace Checkout

/-! ## String utilities (UTF-8, base64, percent-encoding, JS string search) -/

def pathJoin (a b : String) : String := a ++ "/" ++ b

def utf8EncodeCodepoint (c : Nat) : List Nat :=
  if c < 128 then [c]
  else if c < 2048 then [192 + c / 64, 128 + c % 64]
  else if c < 65536 then [224 + c / 4096, 128 + (c / 64) % 64, 128 + c % 64]
  else [240 + c / 262144, 128 + (c / 4096) % 64, 128 + (c / 64) % 64, 128 + c % 64]

def utf8Bytes (s : String) : List Nat :=
  s.data.flatMap (fun c => utf8EncodeCodepoint c.toNat)

def base64Digit (n : Nat) : Char :=
  if n < 26 then Char.ofNat (65 + n)
  else if n < 52 then Char.ofNat (97 + (n - 26))
  else if n < 62 then Char.ofNat (48 + (n - 52))
  else if n = 62 then Char.ofNat 43
  else Char.ofNat 47

def base64Chars : List Nat → List Char
  | [] => []
  | [b1] => [base64Digit (b1 / 4), base64Digit ((b1 % 4) * 16), Char.ofNat 61, Char.ofNat 61]
  | [b1, b2] => [base64Digit (b1 / 4), base64Digit ((b1 % 4) * 16 + b2 / 16),
      base64Digit ((b2 % 16) * 4), Char.ofNat 61]
  | b1 :: b2 :: b3 :: rest =>
      base64Digit (b1 / 4) :: base64Digit ((b1 % 4) * 16 + b2 / 16) ::
      base64Digit ((b2 % 16) * 4 + b3 / 64) :: base64Digit (b3 % 64) :: base64Chars rest

def base64String (bs : List Nat) : String := String.mk (base64Chars bs)

def isUriUnreserved (c : Char) : Bool :=
  let n := c.toNat
  (65 ≤ n && n ≤ 90) || (97 ≤ n && n ≤ 122) || (48 ≤ n && n ≤ 57) ||
  n = 45 || n = 95 || n = 46 || n = 33 || n = 126 || n = 42 || n = 39 || n = 40 || n = 41

def hexDigit (n : Nat) : Char :=
  if n < 10 then Char.ofNat (48 + n) else Char.ofNat (55 + n)

def percentByte (b : Nat) : List Char :=
  [Char.ofNat 37, hexDigit (b / 16), hexDigit (b % 16)]

def encodeURIComponent (s : String) : String :=
  String.mk (s.data.flatMap (fun c =>
    if isUriUnreserved c then [c] else (utf8EncodeCodepoint c.toNat).flatMap percentByte))

/-- All positions of `s` at which `pat` occurs as a substring
(the positions JS `indexOf`/`lastIndexOf` can report). -/
def matchPositions (pat s : List Char) : List Nat :=
  (List.range (s.length + 1)).filter (fun i => pat.isPrefixOf (s.drop i))

def countOccurrences (pat s : List Char) : Nat := (matchPositions pat s).length

/-- JS `String.prototype.indexOf`: first match position, `-1` when absent. -/
def jsIndexOf (pat s : List Char) : Int :=
  match (matchPositions pat s).head? with
  | some i => (i : Int)
  | none => -1

/-- JS `String.prototype.lastIndexOf`: last match position, `-1` when absent. -/
def jsLastIndexOf (pat s : List Char) : Int :=
  match (matchPositions pat s).getLast? with
  | some i => (i : Int)
  | none => -1

/-- JS `String.prototype.replace` with a string pattern: replace the first
occurrence only; the string is unchanged when there is no occurrence. -/
def replaceFirst (pat repl s : List Char) : List Char :=
  match (matchPositions pat s).head? with
  | some i => s.take i ++ repl ++ s.drop (i + pat.length)
  | none => s

/-! ## Data model -/

/-- What the target path currently is on disk: a non-directory file, or a
directory (`fs-helper`'s `fileExistsSync` / `directoryExistsSync` distinction). -/
inductive FsKind
  | file
  | dir
  deriving DecidableEq, Repr

/-- `ICheckoutInfo` produced by the ref helper: resolved ref plus optional
start point. -/
structure CheckoutInfo where
  ref : String
  startPoint : Option String
  deriving DecidableEq, Repr

/-- `ISourceSettings` from the source file. -/
structure ISourceSettings where
  repositoryPath : String
  repositoryOwner : String
  repositoryName : String
  ref : String
  commit : String
  clean : Bool
  fetchDepth : Nat
  lfs : Bool
  authToken : String
  persistCredentials : Bool
  deriving DecidableEq, Repr

/-- Observable operations issued by a run.  `prepareInvoked` is an
instrumentation marker recording entry into `prepareExistingDirectory`;
everything else corresponds to an effectful call in the source. -/
inductive Op
  | rmRF (p : String)
  | mkdirP (p : String)
  | gitInit
  | remoteAdd (name url : String)
  | configSet (key val : String)
  | configUnsetAttempt (key : String)
  | disableGC
  | checkoutDetach
  | branchDelete (remote : Bool) (name : String)
  | tryClean
  | tryReset
  | lfsInstall
  | fetch (depth : Nat) (refSpec : List String)
  | lfsFetch (target : String)
  | checkout (ref : String) (startPoint : Option String)
  | log1
  | setSecret (val : String)
  | writeConfig (content : String)
  | download (token owner name ref commit path : String)
  | warning
  | debugMsg
  | prepareInvoked
  deriving DecidableEq, Repr

/-- Errors a run can propagate. -/
inductive Err
  | rmRF (p : String)
  | createFailed
  | gitOp (name : String)
  | placeholder
  | download
  deriving DecidableEq, Repr

/-- Results of the external collaborators' calls: the git command manager's
primitives, the filesystem, the ref helper and the REST download client. -/
structure Env where
  rmRFOk : String → Bool
  createCMOk : Bool → Bool
  fetchUrl : String
  isDetachedR : Except Unit Bool
  checkoutDetachOk : Bool
  branchListR : Bool → Except Unit (List String)
  branchDeleteOk : Bool → String → Bool
  tryCleanOk : Bool
  tryResetOk : Bool
  tryDisableGCOk : Bool
  tryConfigUnsetOk : Bool
  readConfig : String
  getRefSpec : String → String → List String
  checkoutInfoR : String → String → Except Unit CheckoutInfo
  lfsInstallOk : Bool
  fetchOk : Bool
  lfsFetchOk : String → Bool
  checkoutOk : Bool
  log1Ok : Bool
  downloadOk : Bool

/-- The mutable state a run acts on: the target path's filesystem entry, the
entries directly inside it, the repository's git metadata and persistent
config store, the cross-call state entry, and the trace of issued operations. -/
structure World where
  pathKind : Option FsKind
  entries : List String
  dotGitDir : Bool
  dotGitConfigFile : Bool
  configKeys : List String
  configFile : List Char
  statePath : Option String
  trace : List Op
  deriving DecidableEq, Repr

/-! ## The effect monad -/

def M (α : Type) : Type := World → Except Err α × World

instance : Monad M where
  pure a := fun w => (Except.ok a, w)
  bind x f := fun w =>
    match x w with
    | (Except.ok a, w1) => f a w1
    | (Except.error e, w1) => (Except.error e, w1)

def throwM {α : Type} (e : Err) : M α := fun w => (Except.error e, w)

/-- `try body finally fin` (JS semantics: the finalizer always runs; an error
raised by the finalizer replaces the body's outcome). -/
def tryFinallyM {α : Type} (body : M α) (fin : M Unit) : M α := fun w =>
  match body w with
  | (Except.ok a, w1) =>
    match fin w1 with
    | (Except.ok _, w2) => (Except.ok a, w2)
    | (Except.error e, w2) => (Except.error e, w2)
  | (Except.error e, w1) =>
    match fin w1 with
    | (Except.ok _, w2) => (Except.error e, w2)
    | (Except.error e2, w2) => (Except.error e2, w2)

def traceOp (op : Op) (w : World) : World := { w with trace := op :: w.trace }

/-! ## Primitive operations -/

def fileExistsM : M Bool := fun w =>
  (Except.ok (decide (w.pathKind = some FsKind.file)), w)

def dirExistsM : M Bool := fun w =>
  (Except.ok (decide (w.pathKind = some FsKind.dir)), w)

def getDotGitDirM : M Bool := fun w => (Except.ok w.dotGitDir, w)

def readdirM : M (List String) := fun w => (Except.ok w.entries, w)

/-- `io.rmRF` applied to the target path itself (the conflicting-file case):
on success the path and everything under it — including the repository's
config store — is gone. -/
def rmPathM (env : Env) (p : String) : M Unit := fun w =>
  if env.rmRFOk p then
    (Except.ok (), { w with pathKind := none, entries := [], dotGitDir := false,
                            dotGitConfigFile := false, configKeys := [], configFile := [],
                            trace := Op.rmRF p :: w.trace })
  else (Except.error (Err.rmRF p), traceOp (Op.rmRF p) w)

/-- State change of a successful `io.rmRF` on one entry `f` directly inside
`rp`: the entry disappears; deleting the `.git` entry destroys the metadata
and config store with it. -/
def applyDeleteEntry (rp f : String) (w : World) : World :=
  if f = ".git" then
    { w with entries := w.entries.filter (fun x => !(x == f)), dotGitDir := false,
             dotGitConfigFile := false, configKeys := [], configFile := [],
             trace := Op.rmRF (pathJoin rp f) :: w.trace }
  else
    { w with entries := w.entries.filter (fun x => !(x == f)),
             trace := Op.rmRF (pathJoin rp f) :: w.trace }

/-- `io.rmRF` applied to one entry `f` directly inside `rp` (the recreate
loop). -/
def deleteEntryM (env : Env) (rp f : String) : M Unit := fun w =>
  if env.rmRFOk (pathJoin rp f) then (Except.ok (), applyDeleteEntry rp f w)
  else (Except.error (Err.rmRF (pathJoin rp f)), traceOp (Op.rmRF (pathJoin rp f)) w)

/-- `io.rmRF` on a lock file inside `.git`, wrapped in the source's
`try { … } catch { core.debug(…) }`: never raises. -/
def rmLockM (env : Env) (p : String) : M Unit := fun w =>
  if env.rmRFOk p then (Except.ok (), traceOp (Op.rmRF p) w)
  else (Except.ok (), traceOp Op.debugMsg (traceOp (Op.rmRF p) w))

def mkdirPM (p : String) : M Unit := fun w =>
  (Except.ok (), { w with pathKind := some FsKind.dir, entries := [], dotGitDir := false,
                          dotGitConfigFile := false, trace := Op.mkdirP p :: w.trace })

def setStatePathM (p : String) : M Unit := fun w =>
  (Except.ok (), { w with statePath := some p })

def gitInitM : M Unit := fun w =>
  (Except.ok (), { w with dotGitDir := true, dotGitConfigFile := true,
                          entries := if w.entries.contains ".git" then w.entries
                                     else ".git" :: w.entries,
                          trace := Op.gitInit :: w.trace })

def remoteAddM (name url : String) : M Unit := fun w =>
  (Except.ok (), traceOp (Op.remoteAdd name url) w)

def tryDisableAutomaticGarbageCollectionM (env : Env) : M Bool := fun w =>
  (Except.ok env.tryDisableGCOk, traceOp Op.disableGC w)

def warnM : M Unit := fun w => (Except.ok (), traceOp Op.warning w)

def debugM : M Unit := fun w => (Except.ok (), traceOp Op.debugMsg w)

def configExistsM (key : String) : M Bool := fun w =>
  (Except.ok (w.configKeys.contains key), w)

def tryConfigUnsetM (env : Env) (key : String) : M Bool := fun w =>
  if env.tryConfigUnsetOk then
    (Except.ok true, { w with configKeys := w.configKeys.filter (fun k => !(k == key)),
                              trace := Op.configUnsetAttempt key :: w.trace })
  else (Except.ok false, traceOp (Op.configUnsetAttempt key) w)

def configSetM (key val : String) : M Unit := fun w =>
  (Except.ok (), { w with configKeys := if w.configKeys.contains key then w.configKeys
                                        else key :: w.configKeys,
                          trace := Op.configSet key val :: w.trace })

def setSecretM (v : String) : M Unit := fun w => (Except.ok (), traceOp (Op.setSecret v) w)

def writeConfigM (content : List Char) : M Unit := fun w =>
  (Except.ok (), { w with configFile := content,
                          trace := Op.writeConfig (String.mk content) :: w.trace })

def isDetachedM (env : Env) : M Bool := fun w =>
  match env.isDetachedR with
  | Except.ok b => (Except.ok b, w)
  | Except.error _ => (Except.error (Err.gitOp "isDetached"), w)

def checkoutDetachM (env : Env) : M Unit := fun w =>
  if env.checkoutDetachOk then (Except.ok (), traceOp Op.checkoutDetach w)
  else (Except.error (Err.gitOp "checkoutDetach"), traceOp Op.checkoutDetach w)

def branchListM (env : Env) (remote : Bool) : M (List String) := fun w =>
  match env.branchListR remote with
  | Except.ok bs => (Except.ok bs, w)
  | Except.error _ => (Except.error (Err.gitOp "branchList"), w)

def branchDeleteM (env : Env) (remote : Bool) (b : String) : M Unit := fun w =>
  if env.branchDeleteOk remote b then (Except.ok (), traceOp (Op.branchDelete remote b) w)
  else (Except.error (Err.gitOp "branchDelete"), traceOp (Op.branchDelete remote b) w)

def tryCleanM (env : Env) : M Bool := fun w => (Except.ok env.tryCleanOk, traceOp Op.tryClean w)

def tryResetM (env : Env) : M Bool := fun w => (Except.ok env.tryResetOk, traceOp Op.tryReset w)

def lfsInstallM (env : Env) : M Unit := fun w =>
  if env.lfsInstallOk then (Except.ok (), traceOp Op.lfsInstall w)
  else (Except.error (Err.gitOp "lfsInstall"), traceOp Op.lfsInstall w)

def fetchM (env : Env) (depth : Nat) (refSpec : List String) : M Unit := fun w =>
  if env.fetchOk then (Except.ok (), traceOp (Op.fetch depth refSpec) w)
  else (Except.error (Err.gitOp "fetch"), traceOp (Op.fetch depth refSpec) w)

def getCheckoutInfoM (env : Env) (ref commit : String) : M CheckoutInfo := fun w =>
  match env.checkoutInfoR ref commit with
  | Except.ok ci => (Except.ok ci, w)
  | Except.error _ => (Except.error (Err.gitOp "getCheckoutInfo"), w)

def lfsFetchM (env : Env) (target : String) : M Unit := fun w =>
  if env.lfsFetchOk target then (Except.ok (), traceOp (Op.lfsFetch target) w)
  else (Except.error (Err.gitOp "lfsFetch"), traceOp (Op.lfsFetch target) w)

def checkoutM (env : Env) (ref : String) (startPoint : Option String) : M Unit := fun w =>
  if env.checkoutOk then (Except.ok (), traceOp (Op.checkout ref startPoint) w)
  else (Except.error (Err.gitOp "checkout"), traceOp (Op.checkout ref startPoint) w)

def log1M (env : Env) : M Unit := fun w =>
  if env.log1Ok then (Except.ok (), traceOp Op.log1 w)
  else (Except.error (Err.gitOp "log1"), traceOp Op.log1 w)

def downloadRepositoryM (env : Env) (token owner name ref commit p : String) : M Unit := fun w =>
  if env.downloadOk then (Except.ok (), traceOp (Op.download token owner name ref commit p) w)
  else (Except.error Err.download, traceOp (Op.download token owner name ref commit p) w)

/-! ## The source file's functions -/

def serverUrl : String := "https://github.com/"

def authConfigKey : String := "http." ++ serverUrl ++ ".extraheader"

def repoUrl (s : ISourceSettings) : String :=
  "https://github.com/" ++ encodeURIComponent s.repositoryOwner ++ "/" ++
    encodeURIComponent s.repositoryName

def removeGitConfig (env : Env) (configKey : String) : M Unit := do
  let ex ← configExistsM configKey
  if ex then
    let ok ← tryConfigUnsetM env configKey
    if ok = false then warnM

def placeholderStr : String := "AUTHORIZATION: basic ***"

def basicCredential (token : String) : String :=
  base64String (utf8Bytes ("x-access-token:" ++ token))

def configureAuthToken (env : Env) (authToken : String) : M Unit := do
  configSetM authConfigKey placeholderStr
  setSecretM (basicCredential authToken)
  let content := env.readConfig.data
  let pIdx := jsIndexOf placeholderStr.data content
  if pIdx < 0 ∨ pIdx ≠ jsLastIndexOf placeholderStr.data content then
    throwM Err.placeholder
  else
    writeConfigM
      (replaceFirst placeholderStr.data
        ("AUTHORIZATION: basic " ++ basicCredential authToken).data content)

def getGitCommandManager (env : Env) (s : ISourceSettings) : M Bool := fun w =>
  if env.createCMOk s.lfs then (Except.ok true, w)
  else if s.lfs then (Except.error Err.createFailed, w)
  else (Except.ok false, w)

def deleteBranches (env : Env) (remote : Bool) : List String → M Unit
  | [] => pure ()
  | b :: rest => do
      branchDeleteM env remote b
      deleteBranches env remote rest

/-- The `if (clean)` section of the reuse attempt: returns the `remove` flag it
decides (the flag is `false` on entry to this section). -/
def cleanDecision (env : Env) : M Bool := do
  let c ← tryCleanM env
  if c = false then do
    debugM
    pure true
  else
    let r ← tryResetM env
    pure (!r)

/-- Body of the `try` block inside `prepareExistingDirectory`: detach HEAD,
delete all local and all remote-tracking branches, then optionally clean and
reset.  Returns the `remove` flag decided inside. -/
def reuseAttempt (env : Env) (clean : Bool) : M Bool := do
  let det ← isDetachedM env
  let _ ← (if det = false then checkoutDetachM env else pure ())
  let bs ← branchListM env false
  let _ ← deleteBranches env false bs
  let bs2 ← branchListM env true
  let _ ← deleteBranches env true bs2
  if clean then do
    let rm ← cleanDecision env
    let _ ← (if rm then warnM else pure ())
    pure rm
  else pure false

/-- The `try { … } catch { warn; remove = true }` around the reuse attempt. -/
def reuseOrRecreate (env : Env) (clean : Bool) : M Bool := fun w =>
  match reuseAttempt env clean w with
  | (Except.ok rm, w1) => (Except.ok rm, w1)
  | (Except.error _, w1) => (Except.ok true, traceOp Op.warning w1)

/-- Decide the `remove` flag of `prepareExistingDirectory` (everything before
the final deletion loop). -/
def decideRemove (env : Env) (gitAvail : Bool) (rp url : String) (clean : Bool) : M Bool :=
  fun w =>
    if gitAvail = false then (Except.ok true, w)
    else if w.dotGitDir = false then (Except.ok true, w)
    else if url ≠ env.fetchUrl then (Except.ok true, w)
    else
      (do rmLockM env (pathJoin (pathJoin rp ".git") "index.lock")
          rmLockM env (pathJoin (pathJoin rp ".git") "shallow.lock")
          reuseOrRecreate env clean) w

def deleteEntries (env : Env) (rp : String) : List String → M Unit
  | [] => pure ()
  | f :: rest => do
      deleteEntryM env rp f
      deleteEntries env rp rest

def prepareExistingDirectory (env : Env) (gitAvail : Bool) (rp url : String)
    (clean : Bool) : M Unit := fun w =>
  (do let rm ← decideRemove env gitAvail rp url clean
      if rm then do
        let files ← readdirM
        deleteEntries env rp files)
    (traceOp Op.prepareInvoked w)

/-- JS `a || b` on the optional start point: an absent *or empty* start point
falls back to the ref. -/
def orFalsy (sp : Option String) (r : String) : String :=
  match sp with
  | some s => if s = "" then r else s
  | none => r

/-- Body of the `try` block in `getSource` (the credential bracket). -/
def bracketBody (env : Env) (s : ISourceSettings) : M Unit := do
  let _ ← configureAuthToken env s.authToken
  let _ ← (if s.lfs then lfsInstallM env else pure ())
  let _ ← fetchM env s.fetchDepth (env.getRefSpec s.ref s.commit)
  let checkoutInfo ← getCheckoutInfoM env s.ref s.commit
  let _ ← (if s.lfs then lfsFetchM env (orFalsy checkoutInfo.startPoint checkoutInfo.ref)
           else pure ())
  let _ ← checkoutM env checkoutInfo.ref checkoutInfo.startPoint
  log1M env

/-- The gateway-mode tail of `getSource` (everything in the `else` branch). -/
def gatewayFlow (env : Env) (s : ISourceSettings) (url : String) : M Unit := do
  let _ ← setStatePathM s.repositoryPath
  let dg ← getDotGitDirM
  let _ ← (if dg = false then do
            let _ ← gitInitM
            remoteAddM "origin" url
          else pure ())
  let gc ← tryDisableAutomaticGarbageCollectionM env
  let _ ← (if gc = false then warnM else pure ())
  let _ ← removeGitConfig env authConfigKey
  tryFinallyM (bracketBody env s)
    (if s.persistCredentials then pure () else removeGitConfig env authConfigKey)

def getSource (env : Env) (s : ISourceSettings) : M Unit := do
  let repositoryUrl := repoUrl s
  let fe ← fileExistsM
  let _ ← (if fe then rmPathM env s.repositoryPath else pure ())
  let isExisting ← dirExistsM
  let _ ← (if isExisting = false then mkdirPM s.repositoryPath else pure ())
  let gitAvail ← getGitCommandManager env s
  let _ ← (if isExisting then
            prepareExistingDirectory env gitAvail s.repositoryPath repositoryUrl s.clean
          else pure ())
  if gitAvail = false then
    downloadRepositoryM env s.authToken s.repositoryOwner s.repositoryName s.ref s.commit
      s.repositoryPath
  else gatewayFlow env s repositoryUrl

def cleanup (env : Env) (repositoryPath : String) : M Unit := fun w =>
  if repositoryPath = "" ∨ w.dotGitConfigFile = false then (Except.ok (), w)
  else if env.createCMOk false = false then (Except.ok (), w)
  else removeGitConfig env authConfigKey w

/-- A fully succeeding environment, the base for concrete test inputs. -/
def baseEnv : Env where
  rmRFOk := fun _ => true
  createCMOk := fun _ => true
  fetchUrl := "https://github.com/acme/widgets"
  isDetachedR := Except.ok false
  checkoutDetachOk := true
  branchListR := fun r => Except.ok (if r then ["origin/main"] else ["main"])
  branchDeleteOk := fun _ _ => true
  tryCleanOk := true
  tryResetOk := true
  tryDisableGCOk := true
  tryConfigUnsetOk := true
  readConfig := "[core]\nAUTHORIZATION: basic ***\n"
  getRefSpec := fun r c => [r, c]
  checkoutInfoR := fun r _ => Except.ok { ref := r, startPoint := none }
  lfsInstallOk := true
  fetchOk := true
  lfsFetchOk := fun _ => true
  checkoutOk := true
  log1Ok := true
  downloadOk := true

/-- An empty filesystem state. -/
def emptyWorld : World where
  pathKind := none
  entries := []
  dotGitDir := false
  dotGitConfigFile := false
  configKeys := []
  configFile := []
  statePath := none
  trace := []

/-- A pre-existing repository directory whose state matches `baseEnv`. -/
def repoWorld : World where
  pathKind := some FsKind.dir
  entries := [".git", "work.txt"]
  dotGitDir := true
  dotGitConfigFile := true
  configKeys := []
  configFile := []
  statePath := none
  trace := []

/-- Baseline settings matching the spec scenario. -/
def baseSettings : ISourceSettings where
  repositoryPath := "p"
  repositoryOwner := "acme"
  repositoryName := "widgets"
  ref := "refs/heads/main"
  commit := ""
  clean := true
  fetchDepth := 1
  lfs := false
  authToken := "tok"
  persistCredentials := false

def cexEnvC3 : Env := { baseEnv with rmRFOk := fun p => !(p == "p/a") }

def cexWorldC3 : World := { emptyWorld with pathKind := some FsKind.dir, entries := ["a", "b"] }

/-! ## Effect framework: trace-only runs and deltas -/

/-- `m`, started anywhere, succeeds with value `a` and only appends trace
entries satisfying `P`. -/
def RunsTo {α : Type} (m : M α) (a : α) (P : Op → Prop) : Prop :=
  ∀ w, ∃ Δ, m w = (Except.ok a, { w with trace := Δ ++ w.trace }) ∧ ∀ op ∈ Δ, P op

/-- `m` only ever appends to the trace, leaving every other state component
unchanged — also on its failure paths. -/
def TraceOnlyEff {α : Type} (m : M α) : Prop :=
  ∀ w, ∃ Δ, (m w).2 = { w with trace := Δ ++ w.trace }

/-- Every trace entry `m` appends satisfies `P` — also on failure paths. -/
def OpsDelta {α : Type} (m : M α) (P : Op → Prop) : Prop :=
  ∀ w, ∃ Δ, (m w).2.trace = Δ ++ w.trace ∧ ∀ op ∈ Δ, P op

/-- `m` never changes the cross-call state entry. -/
def KeepsStatePath {α : Type} (m : M α) : Prop :=
  ∀ w, (m w).2.statePath = w.statePath

/-- All operations the in-place reuse attempt can perform succeed. -/
def reuseOpsOk (env : Env) : Prop :=
  (∃ b, env.isDetachedR = Except.ok b) ∧ env.checkoutDetachOk = true ∧
  (∀ r, ∃ bs, env.branchListR r = Except.ok bs) ∧ (∀ r b, env.branchDeleteOk r b = true)

/-- The `remove` flag that the clean/reset section decides. -/
def cleanOutcome (env : Env) : Bool :=
  if env.tryCleanOk = false then true else !env.tryResetOk

/-! ## Successful runs that hit required operations -/

/-- From any state, `m` succeeds with value `a`, only appends to the trace,
and the appended segment contains every operation in `req`. -/
def SucceedsWithOps {α : Type} (m : M α) (a : α) (req : List Op) : Prop :=
  ∀ w, ∃ w' Δ, m w = (Except.ok a, w') ∧ w'.trace = Δ ++ w.trace ∧ ∀ x ∈ req, x ∈ Δ

def cexEnvC8 : Env :=
  { baseEnv with checkoutInfoR := fun _ _ => Except.ok { ref := "r", startPoint := some "" } }

def cexSettingsC8 : ISourceSettings := { baseSettings with lfs := true }

/-- Tail of `getSource` for a freshly created directory (`isExisting = false`):
acquire the gateway, then download or gateway flow. -/
def sourceTail (env : Env) (s : ISourceSettings) : M Unit :=
  getGitCommandManager env s >>= fun gitAvail =>
    if gitAvail = false then
      downloadRepositoryM env s.authToken s.repositoryOwner s.repositoryName s.ref s.commit
        s.repositoryPath
    else gatewayFlow env s (repoUrl s)

/-- Tail of `getSource` for a pre-existing directory (`isExisting = true`). -/
def sourceTailExisting (env : Env) (s : ISourceSettings) : M Unit :=
  getGitCommandManager env s >>= fun gitAvail =>
    prepareExistingDirectory env gitAvail s.repositoryPath (repoUrl s) s.clean >>= fun _ =>
      if gitAvail = false then
        downloadRepositoryM env s.authToken s.repositoryOwner s.repositoryName s.ref s.commit
          s.repositoryPath
      else gatewayFlow env s (repoUrl s)

def envUnavailable : Env := { baseEnv with createCMOk := fun _ => false }

/-- The only operations the REST-fallback mode may perform: filesystem
deletions/creation, the reconciler entry marker, and the one download call
carrying the settings' token. -/
def restOp (s : ISourceSettings) (op : Op) : Prop :=
  (∃ p, op = Op.rmRF p) ∨ (∃ p, op = Op.mkdirP p) ∨ op = Op.prepareInvoked ∨
    op = Op.download s.authToken s.repositoryOwner s.repositoryName s.ref s.commit
      s.repositoryPath

/-! ## Auth-key absence after the credential bracket -/

/-- Every run of `m` ends with the auth config key absent. -/
def EndsKeyAbsent {α : Type} (m : M α) : Prop :=
  ∀ w, authConfigKey ∉ (m w).2.configKeys

def cexEnvC1 : Env := { baseEnv with tryConfigUnsetOk := false }

theorem M.bind_def {α β : Type} (x : M α) (f : α → M β) (w : World) :
    (x >>= f) w =
      match x w with
      | (Except.ok a, w1) => f a w1
      | (Except.error e, w1) => (Except.error e, w1) := rfl

theorem M.pure_def {α : Type} (a : α) (w : World) :
    (pure a : M α) w = (Except.ok a, w) := rfl

/-! ## Characterization lemmas -/

theorem removeGitConfig_run (env : Env) (key : String) (w : World) :
    removeGitConfig env key w =
      if key ∈ w.configKeys then
        if env.tryConfigUnsetOk then
          (Except.ok (), { w with configKeys := w.configKeys.filter (fun k => !(k == key)),
                                  trace := Op.configUnsetAttempt key :: w.trace })
        else (Except.ok (), traceOp Op.warning (traceOp (Op.configUnsetAttempt key) w))
      else (Except.ok (), w) := by
  by_cases hc : key ∈ w.configKeys <;>
    cases hu : env.tryConfigUnsetOk <;>
      simp [removeGitConfig, M.bind_def, M.pure_def, configExistsM, tryConfigUnsetM, warnM,
        hc, hu]

theorem removeGitConfig_fst (env : Env) (key : String) (w : World) :
    (removeGitConfig env key w).1 = Except.ok () := by
  rw [removeGitConfig_run] ; split <;> [skip; rfl] ; split <;> rfl

theorem removeGitConfig_notMem (env : Env) (key : String) (w : World)
    (h : env.tryConfigUnsetOk = true) :
    key ∉ (removeGitConfig env key w).2.configKeys := by
  rw [removeGitConfig_run]
  by_cases hc : key ∈ w.configKeys
  · rw [if_pos hc, if_pos h]
    intro hmem
    have h2 := (List.mem_filter.mp hmem).2
    simp at h2
  · rw [if_neg hc]
    exact hc

theorem removeGitConfig_preserves (env : Env) (key : String) (w : World) :
    (removeGitConfig env key w).2.pathKind = w.pathKind ∧
    (removeGitConfig env key w).2.entries = w.entries ∧
    (removeGitConfig env key w).2.statePath = w.statePath := by
  rw [removeGitConfig_run]
  split <;> [skip; exact ⟨rfl, rfl, rfl⟩] ; split <;> exact ⟨rfl, rfl, rfl⟩

/-- C7: `cleanup` never throws: it is a no-op when the path is empty, the
`.git/config` metadata file is missing, or gateway construction fails;
otherwise it removes the auth config entry best-effort, emitting a warning
(not an error) when unsetting fails. -/
theorem claim_C7 (env : Env) (rp : String) (w : World) :
    (cleanup env rp w).1 = Except.ok () ∧
    ((rp = "" ∨ w.dotGitConfigFile = false) → (cleanup env rp w).2 = w) ∧
    (rp ≠ "" → w.dotGitConfigFile = true → env.createCMOk false = false →
      (cleanup env rp w).2 = w) ∧
    (rp ≠ "" → w.dotGitConfigFile = true → env.createCMOk false = true →
      env.tryConfigUnsetOk = true → authConfigKey ∉ (cleanup env rp w).2.configKeys) ∧
    (rp ≠ "" → w.dotGitConfigFile = true → env.createCMOk false = true →
      env.tryConfigUnsetOk = false → authConfigKey ∈ w.configKeys →
      Op.warning ∈ (cleanup env rp w).2.trace) := by
  unfold cleanup
  by_cases h1 : rp = "" ∨ w.dotGitConfigFile = false
  · rw [if_pos h1]
    refine ⟨rfl, fun _ => rfl, ?_, ?_, ?_⟩
    · intro hne hdg _
      rcases h1 with h | h
      · exact absurd h hne
      · exact absurd hdg (by simp [h])
    · intro hne hdg _ _
      rcases h1 with h | h
      · exact absurd h hne
      · exact absurd hdg (by simp [h])
    · intro hne hdg _ _ _
      rcases h1 with h | h
      · exact absurd h hne
      · exact absurd hdg (by simp [h])
  · rw [if_neg h1]
    by_cases h2 : env.createCMOk false = false
    · rw [if_pos h2]
      refine ⟨rfl, fun h => absurd h h1, fun _ _ _ => rfl, ?_, ?_⟩
      · intro _ _ hcm
        exact absurd h2 (by simp [hcm])
      · intro _ _ hcm
        exact absurd h2 (by simp [hcm])
    · rw [if_neg h2]
      refine ⟨removeGitConfig_fst env authConfigKey w, fun h => absurd h h1, ?_, ?_, ?_⟩
      · intro _ _ hcm
        exact absurd hcm h2
      · intro _ _ _ hu
        exact removeGitConfig_notMem env authConfigKey w hu
      · intro _ _ _ hu hmem
        rw [removeGitConfig_run, if_pos hmem, hu]
        simp [traceOp]

theorem claim_C7_witness :
    (cleanup baseEnv "p" { repoWorld with configKeys := [authConfigKey] }).1 =
        Except.ok () ∧
      authConfigKey ∉
        (cleanup baseEnv "p" { repoWorld with configKeys := [authConfigKey] }).2.configKeys := by
  refine ⟨(claim_C7 baseEnv "p" _).1, ?_⟩
  exact (claim_C7 baseEnv "p" _).2.2.2.1 (by decide) rfl rfl rfl

theorem matchPositions_pairwise (pat s : List Char) :
    (matchPositions pat s).Pairwise (· < ·) :=
  (List.pairwise_lt_range _).filter _

/-- The source's `indexOf < 0 || indexOf != lastIndexOf` test holds exactly
when the pattern does not occur exactly once. -/
theorem indexOf_check_iff (pat s : List Char) :
    (jsIndexOf pat s < 0 ∨ jsIndexOf pat s ≠ jsLastIndexOf pat s) ↔
      countOccurrences pat s ≠ 1 := by
  have hp := matchPositions_pairwise pat s
  unfold jsIndexOf jsLastIndexOf countOccurrences
  cases hl : matchPositions pat s with
  | nil => simp
  | cons a l =>
    cases l with
    | nil => simp
    | cons b t =>
      rw [hl] at hp
      simp only [List.head?_cons, List.getLast?_cons_cons, List.length_cons]
      constructor
      · intro _
        omega
      · intro _
        right
        have hne : b :: t ≠ [] := by simp
        have hmem : (b :: t).getLast hne ∈ b :: t := List.getLast_mem hne
        have hlt : a < (b :: t).getLast hne := (List.pairwise_cons.mp hp).1 _ hmem
        rw [List.getLast?_eq_getLast _ hne]
        show (a : Int) ≠ ((b :: t).getLast hne : Int)
        omega

/-- C2: `configureAuthToken` first sets the placeholder as the value of the
auth config key, then throws exactly when the placeholder does not occur
exactly once in the persistent config file's contents; with exactly one
occurrence it replaces that occurrence in place by
`AUTHORIZATION: basic <base64 of x-access-token:token>`. -/
theorem claim_C2 (env : Env) (token : String) (w : World) :
    ((configureAuthToken env token w).1 = Except.error Err.placeholder ↔
      countOccurrences placeholderStr.data env.readConfig.data ≠ 1) ∧
    Op.configSet authConfigKey placeholderStr ∈ (configureAuthToken env token w).2.trace ∧
    authConfigKey ∈ (configureAuthToken env token w).2.configKeys ∧
    (countOccurrences placeholderStr.data env.readConfig.data = 1 →
      (configureAuthToken env token w).1 = Except.ok () ∧
      (configureAuthToken env token w).2.configFile =
        replaceFirst placeholderStr.data
          ("AUTHORIZATION: basic " ++ basicCredential token).data env.readConfig.data) := by
  unfold configureAuthToken
  simp only [M.bind_def, configSetM, setSecretM, traceOp]
  by_cases hc : jsIndexOf placeholderStr.data env.readConfig.data < 0 ∨
      jsIndexOf placeholderStr.data env.readConfig.data ≠
        jsLastIndexOf placeholderStr.data env.readConfig.data
  · rw [if_pos hc]
    have hcount := (indexOf_check_iff placeholderStr.data env.readConfig.data).mp hc
    refine ⟨by simp [throwM, hcount], by simp [throwM], ?_, fun h => absurd h hcount⟩
    simp only [throwM]
    by_cases hk : authConfigKey ∈ w.configKeys <;> simp [hk]
  · rw [if_neg hc]
    have hcount : countOccurrences placeholderStr.data env.readConfig.data = 1 := by
      by_contra hne
      exact hc ((indexOf_check_iff placeholderStr.data env.readConfig.data).mpr hne)
    refine ⟨by simp [writeConfigM, hcount], by simp [writeConfigM], ?_,
      fun _ => ⟨by simp [writeConfigM], by simp [writeConfigM]⟩⟩
    simp only [writeConfigM]
    by_cases hk : authConfigKey ∈ w.configKeys <;> simp [hk]

theorem claim_C2_witness :
    countOccurrences placeholderStr.data baseEnv.readConfig.data = 1 ∧
    (configureAuthToken baseEnv "tok" emptyWorld).1 = Except.ok () := by
  refine ⟨by decide, ?_⟩
  exact ((claim_C2 baseEnv "tok" emptyWorld).2.2.2 (by decide)).1

theorem applyDeleteEntry_entries (rp f : String) (w : World) :
    (applyDeleteEntry rp f w).entries = w.entries.filter (fun x => !(x == f)) := by
  unfold applyDeleteEntry ; split <;> rfl

theorem applyDeleteEntry_pathKind (rp f : String) (w : World) :
    (applyDeleteEntry rp f w).pathKind = w.pathKind := by
  unfold applyDeleteEntry ; split <;> rfl

theorem applyDeleteEntry_statePath (rp f : String) (w : World) :
    (applyDeleteEntry rp f w).statePath = w.statePath := by
  unfold applyDeleteEntry ; split <;> rfl

theorem applyDeleteEntry_trace (rp f : String) (w : World) :
    (applyDeleteEntry rp f w).trace = Op.rmRF (pathJoin rp f) :: w.trace := by
  unfold applyDeleteEntry ; split <;> rfl

/-- A run of the deletion loop in which every single deletion succeeds and the
snapshot `files` covers the current entries leaves the directory empty and the
path entry itself untouched. -/
theorem deleteEntries_all (env : Env) (rp : String) :
    ∀ (files : List String) (w : World),
      (∀ f ∈ files, env.rmRFOk (pathJoin rp f) = true) → w.entries ⊆ files →
      (deleteEntries env rp files w).1 = Except.ok () ∧
      (deleteEntries env rp files w).2.entries = [] ∧
      (deleteEntries env rp files w).2.pathKind = w.pathKind ∧
      (deleteEntries env rp files w).2.statePath = w.statePath := by
  intro files
  induction files with
  | nil =>
    intro w _ hsub
    have he : w.entries = [] := List.subset_nil.mp hsub
    exact ⟨rfl, he, rfl, rfl⟩
  | cons f rest ih =>
    intro w hok hsub
    have hfok : env.rmRFOk (pathJoin rp f) = true := hok f (by simp)
    have hstep : deleteEntries env rp (f :: rest) w =
        deleteEntries env rp rest (applyDeleteEntry rp f w) := by
      simp [deleteEntries, M.bind_def, deleteEntryM, hfok]
    have hsub1 : (applyDeleteEntry rp f w).entries ⊆ rest := by
      rw [applyDeleteEntry_entries]
      intro x hx
      have hx1 := List.mem_filter.mp hx
      have hxm : x ∈ f :: rest := hsub hx1.1
      have hxne : x ≠ f := by
        intro he
        rw [he] at hx1
        simp at hx1
      rcases List.mem_cons.mp hxm with h | h
      · exact absurd h hxne
      · exact h
    have hrec := ih (applyDeleteEntry rp f w) (fun g hg => hok g (by simp [hg])) hsub1
    rw [hstep]
    exact ⟨hrec.1, hrec.2.1,
      hrec.2.2.1.trans (applyDeleteEntry_pathKind rp f w),
      hrec.2.2.2.trans (applyDeleteEntry_statePath rp f w)⟩

/-- When removal is decided for one of the three structural reasons, the
decision phase returns `true` without touching the state. -/
theorem decideRemove_trigger (env : Env) (gitAvail : Bool) (rp url : String) (clean : Bool)
    (w : World) (htrig : gitAvail = false ∨ w.dotGitDir = false ∨ url ≠ env.fetchUrl) :
    decideRemove env gitAvail rp url clean w = (Except.ok true, w) := by
  unfold decideRemove
  rcases htrig with h | h | h
  · rw [if_pos h]
  · by_cases hg : gitAvail = false
    · rw [if_pos hg]
    · rw [if_neg hg, if_pos h]
  · by_cases hg : gitAvail = false
    · rw [if_pos hg]
    · rw [if_neg hg]
      by_cases hd : w.dotGitDir = false
      · rw [if_pos hd]
      · rw [if_neg hd, if_pos h]

/-- C3 counterexample: with git unavailable (removal decided) and the deletion
of entry `a` failing, the error propagates out of `prepareExistingDirectory`
and entry `b` is never deleted — per-entry deletion is not best-effort. -/
theorem claim_C3_cex :
    (prepareExistingDirectory cexEnvC3 false "p" "u" false cexWorldC3).1 =
      Except.error (Err.rmRF "p/a") ∧
    "b" ∈ (prepareExistingDirectory cexEnvC3 false "p" "u" false cexWorldC3).2.entries := by
  exact ⟨rfl, by decide⟩

/-- C3 (amended): whenever removal is decided (gateway unavailable, `.git`
missing, or fetch-URL mismatch) and every per-entry deletion succeeds, every
entry inside the path is deleted while the path's own directory entry is
preserved; a failing deletion instead propagates its error (see the
counterexample). -/
theorem claim_C3 (env : Env) (gitAvail : Bool) (rp url : String) (clean : Bool) (w : World)
    (htrig : gitAvail = false ∨ w.dotGitDir = false ∨ url ≠ env.fetchUrl)
    (hok : ∀ f ∈ w.entries, env.rmRFOk (pathJoin rp f) = true) :
    (prepareExistingDirectory env gitAvail rp url clean w).1 = Except.ok () ∧
    (prepareExistingDirectory env gitAvail rp url clean w).2.entries = [] ∧
    (prepareExistingDirectory env gitAvail rp url clean w).2.pathKind = w.pathKind := by
  have hd := decideRemove_trigger env gitAvail rp url clean (traceOp Op.prepareInvoked w) htrig
  have hrun : prepareExistingDirectory env gitAvail rp url clean w =
      deleteEntries env rp w.entries (traceOp Op.prepareInvoked w) := by
    unfold prepareExistingDirectory
    rw [M.bind_def, hd]
    simp [M.bind_def, readdirM, traceOp]
  have hall := deleteEntries_all env rp w.entries (traceOp Op.prepareInvoked w) hok
    (by exact fun x hx => hx)
  rw [hrun]
  exact ⟨hall.1, hall.2.1, hall.2.2.1⟩

theorem claim_C3_witness :
    ((false = false ∨ repoWorld.dotGitDir = false ∨ "u" ≠ baseEnv.fetchUrl) ∧
      ∀ f ∈ repoWorld.entries, baseEnv.rmRFOk (pathJoin "p" f) = true) ∧
    (prepareExistingDirectory baseEnv false "p" "u" false repoWorld).1 = Except.ok () ∧
    (prepareExistingDirectory baseEnv false "p" "u" false repoWorld).2.entries = [] ∧
    (prepareExistingDirectory baseEnv false "p" "u" false repoWorld).2.pathKind =
      repoWorld.pathKind := by
  refine ⟨⟨Or.inl rfl, fun f _ => rfl⟩, ?_⟩
  exact claim_C3 baseEnv false "p" "u" false repoWorld (Or.inl rfl) (fun f _ => rfl)

theorem RunsTo_bind {α β : Type} {m : M α} {f : α → M β} {a : α} {b : β} {P : Op → Prop}
    (hm : RunsTo m a P) (hf : RunsTo (f a) b P) : RunsTo (m >>= f) b P := by
  intro w
  obtain ⟨d1, h1, hp1⟩ := hm w
  obtain ⟨d2, h2, hp2⟩ := hf { w with trace := d1 ++ w.trace }
  refine ⟨d2 ++ d1, ?_, ?_⟩
  · rw [M.bind_def, h1]
    simpa [List.append_assoc] using h2
  · intro op hop
    rcases List.mem_append.mp hop with h | h
    exacts [hp2 op h, hp1 op h]

theorem RunsTo_pure {α : Type} (a : α) (P : Op → Prop) : RunsTo (pure a : M α) a P :=
  fun w => ⟨[], rfl, by simp⟩

theorem TraceOnlyEff_bind {α β : Type} {m : M α} {f : α → M β}
    (hm : TraceOnlyEff m) (hf : ∀ a, TraceOnlyEff (f a)) : TraceOnlyEff (m >>= f) := by
  intro w
  rcases hme : m w with ⟨r, w1⟩
  obtain ⟨d1, h1⟩ := hm w
  rw [hme] at h1
  dsimp only at h1
  cases r with
  | ok a =>
    obtain ⟨d2, h2⟩ := hf a w1
    refine ⟨d2 ++ d1, ?_⟩
    rw [M.bind_def, hme]
    simp only
    rw [h2, h1]
    simp [List.append_assoc]
  | error e =>
    refine ⟨d1, ?_⟩
    rw [M.bind_def, hme]
    exact h1

theorem TraceOnlyEff_pure {α : Type} (a : α) : TraceOnlyEff (pure a : M α) :=
  fun _ => ⟨[], rfl⟩

theorem TraceOnlyEff_ite {α : Type} {c : Prop} [Decidable c] {m1 m2 : M α}
    (h1 : TraceOnlyEff m1) (h2 : TraceOnlyEff m2) :
    TraceOnlyEff (if c then m1 else m2) := by
  split
  · exact h1
  · exact h2

theorem OpsDelta_bind {α β : Type} {m : M α} {f : α → M β} {P : Op → Prop}
    (hm : OpsDelta m P) (hf : ∀ a, OpsDelta (f a) P) : OpsDelta (m >>= f) P := by
  intro w
  rcases hme : m w with ⟨r, w1⟩
  obtain ⟨d1, h1, hp1⟩ := hm w
  rw [hme] at h1
  dsimp only at h1
  cases r with
  | ok a =>
    obtain ⟨d2, h2, hp2⟩ := hf a w1
    refine ⟨d2 ++ d1, ?_, ?_⟩
    · rw [M.bind_def, hme]
      simp only
      rw [h2, h1, List.append_assoc]
    · intro op hop
      rcases List.mem_append.mp hop with h | h
      exacts [hp2 op h, hp1 op h]
  | error e =>
    refine ⟨d1, ?_, hp1⟩
    rw [M.bind_def, hme]
    exact h1

theorem OpsDelta_pure {α : Type} (a : α) (P : Op → Prop) : OpsDelta (pure a : M α) P :=
  fun w => ⟨[], rfl, by simp⟩

theorem OpsDelta_ite {α : Type} {c : Prop} [Decidable c] {m1 m2 : M α} {P : Op → Prop}
    (h1 : OpsDelta m1 P) (h2 : OpsDelta m2 P) : OpsDelta (if c then m1 else m2) P := by
  split
  · exact h1
  · exact h2

theorem KeepsStatePath_bind {α β : Type} {m : M α} {f : α → M β}
    (hm : KeepsStatePath m) (hf : ∀ a, KeepsStatePath (f a)) : KeepsStatePath (m >>= f) := by
  intro w
  rcases hme : m w with ⟨r, w1⟩
  have h1 := hm w
  rw [hme] at h1
  dsimp only at h1
  cases r with
  | ok a =>
    have h2 := hf a w1
    rw [M.bind_def, hme]
    simp only
    rw [h2, h1]
  | error e =>
    rw [M.bind_def, hme]
    exact h1

theorem KeepsStatePath_pure {α : Type} (a : α) : KeepsStatePath (pure a : M α) :=
  fun _ => rfl

theorem KeepsStatePath_ite {α : Type} {c : Prop} [Decidable c] {m1 m2 : M α}
    (h1 : KeepsStatePath m1) (h2 : KeepsStatePath m2) :
    KeepsStatePath (if c then m1 else m2) := by
  split
  · exact h1
  · exact h2

/-! ## Primitive run lemmas -/

theorem warnM_runs (P : Op → Prop) (hP : P Op.warning) : RunsTo warnM () P :=
  fun w => ⟨[Op.warning], rfl, by simpa⟩

theorem debugM_runs (P : Op → Prop) (hP : P Op.debugMsg) : RunsTo debugM () P :=
  fun w => ⟨[Op.debugMsg], rfl, by simpa⟩

theorem rmLockM_runs (env : Env) (p : String) (P : Op → Prop)
    (hP1 : P (Op.rmRF p)) (hP2 : P Op.debugMsg) : RunsTo (rmLockM env p) () P := by
  intro w
  by_cases h : env.rmRFOk p = true
  · exact ⟨[Op.rmRF p], by simp [rmLockM, h, traceOp], by simpa⟩
  · refine ⟨[Op.debugMsg, Op.rmRF p], ?_, ?_⟩
    · simp only [rmLockM, h, Bool.false_eq_true, if_false, traceOp]
      rfl
    · intro op hop
      rcases List.mem_cons.mp hop with h1 | h1
      · rw [h1] ; exact hP2
      · rw [List.mem_singleton.mp h1] ; exact hP1

theorem isDetachedM_runs (env : Env) (det : Bool) (P : Op → Prop)
    (h : env.isDetachedR = Except.ok det) : RunsTo (isDetachedM env) det P :=
  fun w => ⟨[], by simp [isDetachedM, h], by simp⟩

theorem checkoutDetachM_runs (env : Env) (P : Op → Prop)
    (h : env.checkoutDetachOk = true) (hP : P Op.checkoutDetach) :
    RunsTo (checkoutDetachM env) () P :=
  fun w => ⟨[Op.checkoutDetach], by simp [checkoutDetachM, h, traceOp], by simpa⟩

theorem branchListM_runs (env : Env) (r : Bool) (bs : List String) (P : Op → Prop)
    (h : env.branchListR r = Except.ok bs) : RunsTo (branchListM env r) bs P :=
  fun w => ⟨[], by simp [branchListM, h], by simp⟩

theorem branchDeleteM_runs (env : Env) (r : Bool) (b : String) (P : Op → Prop)
    (h : env.branchDeleteOk r b = true) (hP : P (Op.branchDelete r b)) :
    RunsTo (branchDeleteM env r b) () P :=
  fun w => ⟨[Op.branchDelete r b], by simp [branchDeleteM, h, traceOp], by simpa⟩

theorem tryCleanM_runs (env : Env) (P : Op → Prop) (hP : P Op.tryClean) :
    RunsTo (tryCleanM env) env.tryCleanOk P :=
  fun w => ⟨[Op.tryClean], by simp [tryCleanM, traceOp], by simpa⟩

theorem tryResetM_runs (env : Env) (P : Op → Prop) (hP : P Op.tryReset) :
    RunsTo (tryResetM env) env.tryResetOk P :=
  fun w => ⟨[Op.tryReset], by simp [tryResetM, traceOp], by simpa⟩

theorem deleteBranches_runs (env : Env) (r : Bool) (P : Op → Prop)
    (hbd : ∀ b, env.branchDeleteOk r b = true) (hP : ∀ b, P (Op.branchDelete r b)) :
    ∀ bs, RunsTo (deleteBranches env r bs) () P := by
  intro bs
  induction bs with
  | nil => exact RunsTo_pure () P
  | cons b rest ih =>
    exact RunsTo_bind (branchDeleteM_runs env r b P (hbd b) (hP b)) ih

theorem cleanDecision_runs (env : Env) (P : Op → Prop)
    (hP : P Op.tryClean ∧ P Op.tryReset ∧ P Op.debugMsg) :
    RunsTo (cleanDecision env) (cleanOutcome env) P := by
  unfold cleanDecision cleanOutcome
  refine RunsTo_bind (tryCleanM_runs env P hP.1) ?_
  by_cases h : env.tryCleanOk = false
  · rw [if_pos h, if_pos h]
    exact RunsTo_bind (debugM_runs P hP.2.2) (RunsTo_pure true P)
  · rw [if_neg h, if_neg h]
    exact RunsTo_bind (tryResetM_runs env P hP.2.1) (RunsTo_pure (!env.tryResetOk) P)

theorem reuseAttempt_runs (env : Env) (clean : Bool) (det : Bool) (bs1 bs2 : List String)
    (P : Op → Prop)
    (hdet : env.isDetachedR = Except.ok det)
    (hcd : env.checkoutDetachOk = true)
    (hb1 : env.branchListR false = Except.ok bs1)
    (hb2 : env.branchListR true = Except.ok bs2)
    (hbd : ∀ r b, env.branchDeleteOk r b = true)
    (hP1 : P Op.checkoutDetach) (hP2 : ∀ r b, P (Op.branchDelete r b))
    (hP3 : clean = true → P Op.tryClean ∧ P Op.tryReset ∧ P Op.debugMsg ∧ P Op.warning) :
    RunsTo (reuseAttempt env clean) (if clean then cleanOutcome env else false) P := by
  unfold reuseAttempt
  refine RunsTo_bind (isDetachedM_runs env det P hdet) ?_
  have h1 : RunsTo (if det = false then checkoutDetachM env else pure ()) () P := by
    by_cases h : det = false
    · rw [if_pos h]
      exact checkoutDetachM_runs env P hcd hP1
    · rw [if_neg h]
      exact RunsTo_pure () P
  refine RunsTo_bind h1 ?_
  refine RunsTo_bind (branchListM_runs env false bs1 P hb1) ?_
  refine RunsTo_bind (deleteBranches_runs env false P (hbd false) (hP2 false) bs1) ?_
  refine RunsTo_bind (branchListM_runs env true bs2 P hb2) ?_
  refine RunsTo_bind (deleteBranches_runs env true P (hbd true) (hP2 true) bs2) ?_
  by_cases h : clean = true
  · rw [if_pos h, if_pos h]
    obtain ⟨hc, hr, hd0, hw⟩ := hP3 h
    refine RunsTo_bind (cleanDecision_runs env P ⟨hc, hr, hd0⟩) ?_
    have h2 : RunsTo (if cleanOutcome env = true then warnM else pure ()) () P := by
      by_cases h2 : cleanOutcome env = true
      · rw [if_pos h2]
        exact warnM_runs P hw
      · rw [if_neg h2]
        exact RunsTo_pure () P
    exact RunsTo_bind h2 (RunsTo_pure (cleanOutcome env) P)
  · rw [if_neg h, if_neg h]
    exact RunsTo_pure false P

theorem reuseOrRecreate_runs (env : Env) (clean : Bool) (rm : Bool) (P : Op → Prop)
    (h : RunsTo (reuseAttempt env clean) rm P) : RunsTo (reuseOrRecreate env clean) rm P := by
  intro w
  obtain ⟨d, hq, hp⟩ := h w
  exact ⟨d, by unfold reuseOrRecreate ; rw [hq], hp⟩

/-- In the reuse branch (gateway available, `.git` present, matching URL) the
decision phase is exactly lock cleanup followed by the guarded reuse attempt. -/
theorem decideRemove_else (env : Env) (rp url : String) (clean : Bool) (w : World)
    (hd : w.dotGitDir = true) (hu : url = env.fetchUrl) :
    decideRemove env true rp url clean w =
      (rmLockM env (pathJoin (pathJoin rp ".git") "index.lock") >>= fun _ =>
        rmLockM env (pathJoin (pathJoin rp ".git") "shallow.lock") >>= fun _ =>
          reuseOrRecreate env clean) w := by
  unfold decideRemove
  rw [if_neg (by simp), if_neg (by simp [hd]), if_neg (by simp [hu])]

/-- C4: with a matching recorded fetch URL and `clean = false`, the reuse path
performs only HEAD detachment and branch deletions (plus lock-file cleanup and
diagnostics): `tryClean`/`tryReset` are never invoked, the call succeeds, and
the state — in particular the directory's contents and the working tree — is
unchanged except for the appended trace. -/
theorem claim_C4 (env : Env) (rp url : String) (w : World)
    (hd : w.dotGitDir = true) (hu : url = env.fetchUrl) (hops : reuseOpsOk env) :
    ∃ Δ, prepareExistingDirectory env true rp url false w =
        (Except.ok (), { w with trace := Δ ++ w.trace }) ∧
      (∀ op ∈ Δ, op = Op.prepareInvoked ∨ (∃ p, op = Op.rmRF p) ∨ op = Op.debugMsg ∨
        op = Op.checkoutDetach ∨ ∃ r b, op = Op.branchDelete r b) ∧
      Op.tryClean ∉ Δ ∧ Op.tryReset ∉ Δ := by
  obtain ⟨⟨det, hdet⟩, hcd, hbl, hbd⟩ := hops
  obtain ⟨bs1, hb1⟩ := hbl false
  obtain ⟨bs2, hb2⟩ := hbl true
  have hreuse := reuseAttempt_runs env false det bs1 bs2
    (fun op => op = Op.prepareInvoked ∨ (∃ p, op = Op.rmRF p) ∨ op = Op.debugMsg ∨
      op = Op.checkoutDetach ∨ ∃ r b, op = Op.branchDelete r b)
    hdet hcd hb1 hb2 hbd (Or.inr (Or.inr (Or.inr (Or.inl rfl))))
    (fun r b => Or.inr (Or.inr (Or.inr (Or.inr ⟨r, b, rfl⟩)))) (by simp)
  have hchain : RunsTo
      (rmLockM env (pathJoin (pathJoin rp ".git") "index.lock") >>= fun _ =>
        rmLockM env (pathJoin (pathJoin rp ".git") "shallow.lock") >>= fun _ =>
          reuseOrRecreate env false) false
      (fun op => op = Op.prepareInvoked ∨ (∃ p, op = Op.rmRF p) ∨ op = Op.debugMsg ∨
        op = Op.checkoutDetach ∨ ∃ r b, op = Op.branchDelete r b) := by
    refine RunsTo_bind
      (rmLockM_runs env _ _ (Or.inr (Or.inl ⟨_, rfl⟩)) (Or.inr (Or.inr (Or.inl rfl)))) ?_
    refine RunsTo_bind
      (rmLockM_runs env _ _ (Or.inr (Or.inl ⟨_, rfl⟩)) (Or.inr (Or.inr (Or.inl rfl)))) ?_
    exact reuseOrRecreate_runs env false false _ hreuse
  obtain ⟨Δ, hrun, hP⟩ := hchain (traceOp Op.prepareInvoked w)
  have hdec : decideRemove env true rp url false (traceOp Op.prepareInvoked w) =
      (Except.ok false,
        { w with trace := Δ ++ Op.prepareInvoked :: w.trace }) := by
    rw [decideRemove_else env rp url false (traceOp Op.prepareInvoked w) hd hu, hrun]
    rfl
  refine ⟨Δ ++ [Op.prepareInvoked], ?_, ?_, ?_, ?_⟩
  · show (decideRemove env true rp url false >>= fun rm =>
        if rm = true then readdirM >>= fun files => deleteEntries env rp files else pure ())
        (traceOp Op.prepareInvoked w) = _
    rw [M.bind_def, hdec]
    simp [M.pure_def, List.append_assoc]
  · intro op hop
    rcases List.mem_append.mp hop with h | h
    · exact hP op h
    · left
      exact List.mem_singleton.mp h
  · intro hmem
    rcases List.mem_append.mp hmem with h | h
    · rcases hP _ h with h1 | ⟨p, h1⟩ | h1 | h1 | ⟨r, b, h1⟩ <;> simp at h1
    · simp at h
  · intro hmem
    rcases List.mem_append.mp hmem with h | h
    · rcases hP _ h with h1 | ⟨p, h1⟩ | h1 | h1 | ⟨r, b, h1⟩ <;> simp at h1
    · simp at h

theorem claim_C4_witness :
    (repoWorld.dotGitDir = true ∧ "https://github.com/acme/widgets" = baseEnv.fetchUrl ∧
      reuseOpsOk baseEnv) ∧
    ∃ Δ, prepareExistingDirectory baseEnv true "p" "https://github.com/acme/widgets" false
          repoWorld =
        (Except.ok (), { repoWorld with trace := Δ ++ repoWorld.trace }) ∧
      (∀ op ∈ Δ, op = Op.prepareInvoked ∨ (∃ p, op = Op.rmRF p) ∨ op = Op.debugMsg ∨
        op = Op.checkoutDetach ∨ ∃ r b, op = Op.branchDelete r b) ∧
      Op.tryClean ∉ Δ ∧ Op.tryReset ∉ Δ := by
  refine ⟨⟨rfl, rfl, ⟨false, rfl⟩, rfl, fun r => ⟨_, rfl⟩, fun r b => rfl⟩, ?_⟩
  exact claim_C4 baseEnv "p" "https://github.com/acme/widgets" repoWorld rfl rfl
    ⟨⟨false, rfl⟩, rfl, fun r => ⟨_, rfl⟩, fun r b => rfl⟩

theorem rmLockM_ok_run (env : Env) (p : String) (h : env.rmRFOk p = true) (w : World) :
    rmLockM env p w = (Except.ok (), traceOp (Op.rmRF p) w) := by
  simp [rmLockM, h]

theorem isDetachedM_traceOnly (env : Env) : TraceOnlyEff (isDetachedM env) := by
  intro w
  unfold isDetachedM
  cases env.isDetachedR <;> exact ⟨[], rfl⟩

theorem checkoutDetachM_traceOnly (env : Env) : TraceOnlyEff (checkoutDetachM env) := by
  intro w
  unfold checkoutDetachM
  split <;> exact ⟨[Op.checkoutDetach], rfl⟩

theorem branchListM_traceOnly (env : Env) (r : Bool) : TraceOnlyEff (branchListM env r) := by
  intro w
  unfold branchListM
  cases env.branchListR r <;> exact ⟨[], rfl⟩

theorem branchDeleteM_traceOnly (env : Env) (r : Bool) (b : String) :
    TraceOnlyEff (branchDeleteM env r b) := by
  intro w
  unfold branchDeleteM
  split <;> exact ⟨[Op.branchDelete r b], rfl⟩

theorem tryCleanM_traceOnly (env : Env) : TraceOnlyEff (tryCleanM env) :=
  fun _ => ⟨[Op.tryClean], rfl⟩

theorem tryResetM_traceOnly (env : Env) : TraceOnlyEff (tryResetM env) :=
  fun _ => ⟨[Op.tryReset], rfl⟩

theorem warnM_traceOnly : TraceOnlyEff warnM := fun _ => ⟨[Op.warning], rfl⟩

theorem debugM_traceOnly : TraceOnlyEff debugM := fun _ => ⟨[Op.debugMsg], rfl⟩

theorem deleteBranches_traceOnly (env : Env) (r : Bool) :
    ∀ bs, TraceOnlyEff (deleteBranches env r bs) := by
  intro bs
  induction bs with
  | nil => exact TraceOnlyEff_pure ()
  | cons b rest ih => exact TraceOnlyEff_bind (branchDeleteM_traceOnly env r b) (fun _ => ih)

theorem cleanDecision_traceOnly (env : Env) : TraceOnlyEff (cleanDecision env) := by
  unfold cleanDecision
  refine TraceOnlyEff_bind (tryCleanM_traceOnly env) (fun c => ?_)
  refine TraceOnlyEff_ite ?_ ?_
  · exact TraceOnlyEff_bind debugM_traceOnly (fun _ => TraceOnlyEff_pure true)
  · exact TraceOnlyEff_bind (tryResetM_traceOnly env) (fun r => TraceOnlyEff_pure (!r))

theorem reuseAttempt_traceOnly (env : Env) (clean : Bool) :
    TraceOnlyEff (reuseAttempt env clean) := by
  unfold reuseAttempt
  refine TraceOnlyEff_bind (isDetachedM_traceOnly env) (fun det => ?_)
  refine TraceOnlyEff_bind
    (TraceOnlyEff_ite (checkoutDetachM_traceOnly env) (TraceOnlyEff_pure ())) (fun _ => ?_)
  refine TraceOnlyEff_bind (branchListM_traceOnly env false) (fun bs => ?_)
  refine TraceOnlyEff_bind (deleteBranches_traceOnly env false bs) (fun _ => ?_)
  refine TraceOnlyEff_bind (branchListM_traceOnly env true) (fun bs2 => ?_)
  refine TraceOnlyEff_bind (deleteBranches_traceOnly env true bs2) (fun _ => ?_)
  refine TraceOnlyEff_ite ?_ (TraceOnlyEff_pure false)
  refine TraceOnlyEff_bind (cleanDecision_traceOnly env) (fun rm => ?_)
  refine TraceOnlyEff_bind (TraceOnlyEff_ite warnM_traceOnly (TraceOnlyEff_pure ()))
    (fun _ => TraceOnlyEff_pure rm)

theorem reuseOrRecreate_ok (env : Env) (clean : Bool) (w : World) :
    ∃ rm w1, reuseOrRecreate env clean w = (Except.ok rm, w1) := by
  unfold reuseOrRecreate
  rcases reuseAttempt env clean w with ⟨r, w1⟩
  cases r with
  | ok a => exact ⟨a, w1, rfl⟩
  | error e => exact ⟨true, traceOp Op.warning w1, rfl⟩

theorem reuseOrRecreate_traceOnly (env : Env) (clean : Bool) :
    TraceOnlyEff (reuseOrRecreate env clean) := by
  intro w
  obtain ⟨d, hd⟩ := reuseAttempt_traceOnly env clean w
  unfold reuseOrRecreate
  rcases hq : reuseAttempt env clean w with ⟨r, w1⟩
  rw [hq] at hd
  dsimp only at hd
  cases r with
  | ok a => exact ⟨d, hd⟩
  | error e =>
    refine ⟨Op.warning :: d, ?_⟩
    show traceOp Op.warning w1 = _
    rw [hd]
    rfl

theorem reuseOrRecreate_catch (env : Env) (clean : Bool) (w : World) (e : Err)
    (he : (reuseAttempt env clean w).1 = Except.error e) :
    reuseOrRecreate env clean w =
      (Except.ok true, traceOp Op.warning (reuseAttempt env clean w).2) := by
  unfold reuseOrRecreate
  rcases hq : reuseAttempt env clean w with ⟨r, w1⟩
  rw [hq] at he
  dsimp only at he
  subst he
  rfl

theorem deleteEntryM_delta (env : Env) (rp f : String) :
    OpsDelta (deleteEntryM env rp f) (fun _ => True) := by
  intro w
  unfold deleteEntryM
  split
  · refine ⟨[Op.rmRF (pathJoin rp f)], ?_, by simp⟩
    show (applyDeleteEntry rp f w).trace = _
    rw [applyDeleteEntry_trace]
    rfl
  · exact ⟨[Op.rmRF (pathJoin rp f)], rfl, by simp⟩

theorem deleteEntries_delta (env : Env) (rp : String) :
    ∀ files, OpsDelta (deleteEntries env rp files) (fun _ => True) := by
  intro files
  induction files with
  | nil => exact OpsDelta_pure () _
  | cons f rest ih => exact OpsDelta_bind (deleteEntryM_delta env rp f) (fun _ => ih)

/-- C6: in the reuse branch (gateway available, `.git` present, matching URL;
entry deletions succeeding), `prepareExistingDirectory` always returns
normally — an exception inside the reuse attempt never propagates; it is
converted (with a warning) into full removal of the directory's contents, and
a failed clean, or a successful clean followed by a failed reset, likewise
ends in full removal. -/
theorem claim_C6 (env : Env) (rp url : String) (clean : Bool) (w : World) (e : Err)
    (hd : w.dotGitDir = true) (hu : url = env.fetchUrl)
    (hrm : ∀ p, env.rmRFOk p = true) :
    (prepareExistingDirectory env true rp url clean w).1 = Except.ok () ∧
    ((∀ w', (reuseAttempt env clean w').1 = Except.error e) →
      (prepareExistingDirectory env true rp url clean w).2.entries = [] ∧
      Op.warning ∈ (prepareExistingDirectory env true rp url clean w).2.trace) ∧
    (reuseOpsOk env → clean = true → env.tryCleanOk = false →
      (prepareExistingDirectory env true rp url clean w).2.entries = []) ∧
    (reuseOpsOk env → clean = true → env.tryCleanOk = true → env.tryResetOk = false →
      (prepareExistingDirectory env true rp url clean w).2.entries = []) := by
  have l1 := pathJoin (pathJoin rp ".git") "index.lock"
  set wm := traceOp Op.prepareInvoked w with hwm
  set w1 := traceOp (Op.rmRF (pathJoin (pathJoin rp ".git") "shallow.lock"))
    (traceOp (Op.rmRF (pathJoin (pathJoin rp ".git") "index.lock")) wm) with hw1
  have hdec : decideRemove env true rp url clean wm = reuseOrRecreate env clean w1 := by
    rw [decideRemove_else env rp url clean wm hd hu]
    rw [M.bind_def, rmLockM_ok_run env _ (hrm _) wm]
    show (rmLockM env _ >>= fun _ => reuseOrRecreate env clean)
      (traceOp (Op.rmRF (pathJoin (pathJoin rp ".git") "index.lock")) wm) = _
    rw [M.bind_def, rmLockM_ok_run env _ (hrm _) _]
  obtain ⟨rm, w2, hro⟩ := reuseOrRecreate_ok env clean w1
  have hprep : prepareExistingDirectory env true rp url clean w =
      (if rm = true then (readdirM >>= fun files => deleteEntries env rp files) w2
       else (Except.ok (), w2)) := by
    show (decideRemove env true rp url clean >>= fun rm0 =>
        if rm0 = true then readdirM >>= fun files => deleteEntries env rp files
        else pure ()) wm = _
    rw [M.bind_def, hdec, hro]
    dsimp only
    by_cases hr : rm = true
    · rw [if_pos hr, if_pos hr]
    · rw [if_neg hr, if_neg hr]
      rfl
  have hremove : rm = true →
      (prepareExistingDirectory env true rp url clean w).1 = Except.ok () ∧
      (prepareExistingDirectory env true rp url clean w).2.entries = [] ∧
      ∃ dd, (prepareExistingDirectory env true rp url clean w).2.trace = dd ++ w2.trace := by
    intro hr
    rw [hprep, if_pos hr]
    have hrr : (readdirM >>= fun files => deleteEntries env rp files) w2 =
        deleteEntries env rp w2.entries w2 := rfl
    rw [hrr]
    have hall := deleteEntries_all env rp w2.entries w2 (fun f _ => hrm _) (fun x hx => hx)
    obtain ⟨dd, hdd, _⟩ := deleteEntries_delta env rp w2.entries w2
    exact ⟨hall.1, hall.2.1, dd, hdd⟩
  refine ⟨?_, ?_, ?_, ?_⟩
  · by_cases hr : rm = true
    · exact (hremove hr).1
    · rw [hprep, if_neg hr]
  · intro hf
    have hro2 := reuseOrRecreate_catch env clean w1 e (hf w1)
    have hcomb : (Except.ok rm, w2) =
        ((Except.ok true : Except Err Bool),
          traceOp Op.warning (reuseAttempt env clean w1).2) := hro.symm.trans hro2
    rw [Prod.mk.injEq] at hcomb
    have hr : rm = true := by
      have := hcomb.1
      simp at this
      exact this
    obtain ⟨_, hent, dd, hdd⟩ := hremove hr
    refine ⟨hent, ?_⟩
    rw [hdd, hcomb.2]
    exact List.mem_append.mpr (Or.inr (by simp [traceOp]))
  · intro hops hc htc
    obtain ⟨⟨det, hdet⟩, hcd, hbl, hbd⟩ := hops
    obtain ⟨bs1, hb1⟩ := hbl false
    obtain ⟨bs2, hb2⟩ := hbl true
    have hruns := reuseAttempt_runs env clean det bs1 bs2 (fun _ => True)
      hdet hcd hb1 hb2 hbd trivial (fun _ _ => trivial) (fun _ => ⟨trivial, trivial, trivial, trivial⟩)
    obtain ⟨dr, hra, _⟩ := hruns w1
    have hval : (if clean then cleanOutcome env else false) = true := by
      rw [hc, if_pos rfl]
      unfold cleanOutcome
      rw [if_pos htc]
    rw [hval] at hra
    have hro3 : reuseOrRecreate env clean w1 =
        (Except.ok true, { w1 with trace := dr ++ w1.trace }) := by
      unfold reuseOrRecreate
      rw [hra]
    have hcomb : (Except.ok rm, w2) =
        ((Except.ok true : Except Err Bool), { w1 with trace := dr ++ w1.trace }) :=
      hro.symm.trans hro3
    rw [Prod.mk.injEq] at hcomb
    have hr : rm = true := by
      have := hcomb.1
      simp at this
      exact this
    exact (hremove hr).2.1
  · intro hops hc htc htr
    obtain ⟨⟨det, hdet⟩, hcd, hbl, hbd⟩ := hops
    obtain ⟨bs1, hb1⟩ := hbl false
    obtain ⟨bs2, hb2⟩ := hbl true
    have hruns := reuseAttempt_runs env clean det bs1 bs2 (fun _ => True)
      hdet hcd hb1 hb2 hbd trivial (fun _ _ => trivial) (fun _ => ⟨trivial, trivial, trivial, trivial⟩)
    obtain ⟨dr, hra, _⟩ := hruns w1
    have hval : (if clean then cleanOutcome env else false) = true := by
      rw [hc, if_pos rfl]
      unfold cleanOutcome
      rw [if_neg (by simp [htc]), htr]
      rfl
    rw [hval] at hra
    have hro3 : reuseOrRecreate env clean w1 =
        (Except.ok true, { w1 with trace := dr ++ w1.trace }) := by
      unfold reuseOrRecreate
      rw [hra]
    have hcomb : (Except.ok rm, w2) =
        ((Except.ok true : Except Err Bool), { w1 with trace := dr ++ w1.trace }) :=
      hro.symm.trans hro3
    rw [Prod.mk.injEq] at hcomb
    have hr : rm = true := by
      have := hcomb.1
      simp at this
      exact this
    exact (hremove hr).2.1

theorem claim_C6_witness :
    (repoWorld.dotGitDir = true ∧ "https://github.com/acme/widgets" = baseEnv.fetchUrl ∧
      (∀ p, baseEnv.rmRFOk p = true)) ∧
    (prepareExistingDirectory baseEnv true "p" "https://github.com/acme/widgets" true
      repoWorld).1 = Except.ok () := by
  refine ⟨⟨rfl, rfl, fun p => rfl⟩, ?_⟩
  exact (claim_C6 baseEnv "p" "https://github.com/acme/widgets" true repoWorld
    (Err.gitOp "branchDelete") rfl rfl (fun p => rfl)).1

theorem SucceedsWithOps_bind {α β : Type} {m : M α} {f : α → M β} {a : α} {b : β}
    {req1 req2 : List Op} (hm : SucceedsWithOps m a req1)
    (hf : SucceedsWithOps (f a) b req2) :
    SucceedsWithOps (m >>= f) b (req1 ++ req2) := by
  intro w
  obtain ⟨w1, d1, h1, ht1, hm1⟩ := hm w
  obtain ⟨w2, d2, h2, ht2, hm2⟩ := hf w1
  refine ⟨w2, d2 ++ d1, ?_, ?_, ?_⟩
  · rw [M.bind_def, h1]
    exact h2
  · rw [ht2, ht1, List.append_assoc]
  · intro x hx
    rcases List.mem_append.mp hx with h | h
    · exact List.mem_append.mpr (Or.inr (hm1 x h))
    · exact List.mem_append.mpr (Or.inl (hm2 x h))

theorem SucceedsWithOps_pure {α : Type} (a : α) : SucceedsWithOps (pure a : M α) a [] :=
  fun w => ⟨w, [], rfl, rfl, by simp⟩

theorem SucceedsWithOps_weaken {α : Type} {m : M α} {a : α} {req1 req2 : List Op}
    (h : SucceedsWithOps m a req1) (hsub : ∀ x ∈ req2, x ∈ req1) :
    SucceedsWithOps m a req2 := by
  intro w
  obtain ⟨w1, d1, h1, ht1, hm1⟩ := h w
  exact ⟨w1, d1, h1, ht1, fun x hx => hm1 x (hsub x hx)⟩

theorem tryFinallyM_swo {α : Type} {body : M α} {fin : M Unit} {a : α}
    {req1 req2 : List Op} (hb : SucceedsWithOps body a req1)
    (hf : SucceedsWithOps fin () req2) :
    SucceedsWithOps (tryFinallyM body fin) a (req1 ++ req2) := by
  intro w
  obtain ⟨w1, d1, h1, ht1, hm1⟩ := hb w
  obtain ⟨w2, d2, h2, ht2, hm2⟩ := hf w1
  refine ⟨w2, d2 ++ d1, ?_, ?_, ?_⟩
  · unfold tryFinallyM
    rw [h1]
    dsimp only
    rw [h2]
  · rw [ht2, ht1, List.append_assoc]
  · intro x hx
    rcases List.mem_append.mp hx with h | h
    · exact List.mem_append.mpr (Or.inr (hm1 x h))
    · exact List.mem_append.mpr (Or.inl (hm2 x h))

theorem swo_bind_dotGit {β : Type} {f : Bool → M β} {b : β} {req : List Op}
    (hf : ∀ dg, SucceedsWithOps (f dg) b req) :
    SucceedsWithOps (getDotGitDirM >>= f) b req := by
  intro w
  obtain ⟨w1, d1, h1, ht1, hm1⟩ := hf w.dotGitDir w
  exact ⟨w1, d1, h1, ht1, hm1⟩

theorem setStatePathM_swo (p : String) : SucceedsWithOps (setStatePathM p) () [] :=
  fun w => ⟨{ w with statePath := some p }, [], rfl, rfl, by simp⟩

theorem gitInitM_swo : SucceedsWithOps gitInitM () [] := by
  intro w
  unfold gitInitM
  exact ⟨_, [Op.gitInit], rfl, rfl, by simp⟩

theorem remoteAddM_swo (n u : String) : SucceedsWithOps (remoteAddM n u) () [] :=
  fun w => ⟨_, [Op.remoteAdd n u], rfl, rfl, by simp⟩

theorem tryDisableGCM_swo (env : Env) :
    SucceedsWithOps (tryDisableAutomaticGarbageCollectionM env) env.tryDisableGCOk [] :=
  fun w => ⟨_, [Op.disableGC], rfl, rfl, by simp⟩

theorem warnM_swo : SucceedsWithOps warnM () [] :=
  fun w => ⟨_, [Op.warning], rfl, rfl, by simp⟩

theorem removeGitConfig_swo (env : Env) (key : String) :
    SucceedsWithOps (removeGitConfig env key) () [] := by
  intro w
  rw [removeGitConfig_run]
  by_cases hc : key ∈ w.configKeys
  · rw [if_pos hc]
    by_cases hu : env.tryConfigUnsetOk
    · rw [if_pos hu]
      exact ⟨_, [Op.configUnsetAttempt key], rfl, rfl, by simp⟩
    · rw [if_neg hu]
      exact ⟨_, [Op.warning, Op.configUnsetAttempt key], rfl, rfl, by simp⟩
  · rw [if_neg hc]
    exact ⟨w, [], rfl, rfl, by simp⟩

theorem configureAuthToken_swo (env : Env) (tok : String)
    (hcount : countOccurrences placeholderStr.data env.readConfig.data = 1) :
    SucceedsWithOps (configureAuthToken env tok) () [] := by
  intro w
  have hc : ¬(jsIndexOf placeholderStr.data env.readConfig.data < 0 ∨
      jsIndexOf placeholderStr.data env.readConfig.data ≠
        jsLastIndexOf placeholderStr.data env.readConfig.data) := by
    intro hcon
    exact (indexOf_check_iff placeholderStr.data env.readConfig.data).mp hcon hcount
  unfold configureAuthToken
  simp only [M.bind_def, configSetM, setSecretM, traceOp]
  rw [if_neg hc]
  refine ⟨_, [Op.writeConfig (String.mk (replaceFirst placeholderStr.data
    ("AUTHORIZATION: basic " ++ basicCredential tok).data env.readConfig.data)),
    Op.setSecret (basicCredential tok),
    Op.configSet authConfigKey placeholderStr], rfl, rfl, by simp⟩

theorem lfsInstallM_swo (env : Env) (h : env.lfsInstallOk = true) :
    SucceedsWithOps (lfsInstallM env) () [] := by
  intro w
  unfold lfsInstallM
  rw [if_pos h]
  exact ⟨_, [Op.lfsInstall], rfl, rfl, by simp⟩

theorem fetchM_swo (env : Env) (d : Nat) (rs : List String) (h : env.fetchOk = true) :
    SucceedsWithOps (fetchM env d rs) () [] := by
  intro w
  unfold fetchM
  rw [if_pos h]
  exact ⟨_, [Op.fetch d rs], rfl, rfl, by simp⟩

theorem getCheckoutInfoM_swo (env : Env) (r c : String) (ci : CheckoutInfo)
    (h : env.checkoutInfoR r c = Except.ok ci) :
    SucceedsWithOps (getCheckoutInfoM env r c) ci [] := by
  intro w
  unfold getCheckoutInfoM
  rw [h]
  exact ⟨w, [], rfl, rfl, by simp⟩

theorem lfsFetchM_swo (env : Env) (t : String) (h : env.lfsFetchOk t = true) :
    SucceedsWithOps (lfsFetchM env t) () [Op.lfsFetch t] := by
  intro w
  unfold lfsFetchM
  rw [if_pos h]
  exact ⟨_, [Op.lfsFetch t], rfl, rfl, by simp⟩

theorem checkoutM_swo (env : Env) (r : String) (sp : Option String)
    (h : env.checkoutOk = true) :
    SucceedsWithOps (checkoutM env r sp) () [Op.checkout r sp] := by
  intro w
  unfold checkoutM
  rw [if_pos h]
  exact ⟨_, [Op.checkout r sp], rfl, rfl, by simp⟩

theorem log1M_swo (env : Env) (h : env.log1Ok = true) :
    SucceedsWithOps (log1M env) () [] := by
  intro w
  unfold log1M
  rw [if_pos h]
  exact ⟨_, [Op.log1], rfl, rfl, by simp⟩

theorem bracketBody_swo (env : Env) (s : ISourceSettings) (ci : CheckoutInfo)
    (hlfs : s.lfs = true)
    (hcount : countOccurrences placeholderStr.data env.readConfig.data = 1)
    (hli : env.lfsInstallOk = true) (hfe : env.fetchOk = true)
    (hci : env.checkoutInfoR s.ref s.commit = Except.ok ci)
    (hlf : env.lfsFetchOk (orFalsy ci.startPoint ci.ref) = true)
    (hco : env.checkoutOk = true) (hlog : env.log1Ok = true) :
    SucceedsWithOps (bracketBody env s) ()
      [Op.lfsFetch (orFalsy ci.startPoint ci.ref), Op.checkout ci.ref ci.startPoint] := by
  unfold bracketBody
  simp only [hlfs, eq_self_iff_true, if_true]
  exact SucceedsWithOps_bind (configureAuthToken_swo env s.authToken hcount)
    (SucceedsWithOps_bind (lfsInstallM_swo env hli)
      (SucceedsWithOps_bind (fetchM_swo env s.fetchDepth _ hfe)
        (SucceedsWithOps_bind (getCheckoutInfoM_swo env s.ref s.commit ci hci)
          (SucceedsWithOps_bind (lfsFetchM_swo env _ hlf)
            (SucceedsWithOps_bind (checkoutM_swo env ci.ref ci.startPoint hco)
              (log1M_swo env hlog))))))

theorem gatewayFlow_swo (env : Env) (s : ISourceSettings) (url : String) (ci : CheckoutInfo)
    (hlfs : s.lfs = true)
    (hcount : countOccurrences placeholderStr.data env.readConfig.data = 1)
    (hli : env.lfsInstallOk = true) (hfe : env.fetchOk = true)
    (hci : env.checkoutInfoR s.ref s.commit = Except.ok ci)
    (hlf : env.lfsFetchOk (orFalsy ci.startPoint ci.ref) = true)
    (hco : env.checkoutOk = true) (hlog : env.log1Ok = true) :
    SucceedsWithOps (gatewayFlow env s url) ()
      [Op.lfsFetch (orFalsy ci.startPoint ci.ref), Op.checkout ci.ref ci.startPoint] := by
  unfold gatewayFlow
  have hfin : SucceedsWithOps
      (if s.persistCredentials = true then pure () else removeGitConfig env authConfigKey)
      () [] := by
    by_cases h : s.persistCredentials = true
    · rw [if_pos h]
      exact SucceedsWithOps_pure ()
    · rw [if_neg h]
      exact removeGitConfig_swo env authConfigKey
  have hwarn : ∀ gc : Bool, SucceedsWithOps (if gc = false then warnM else pure ()) () [] := by
    intro gc
    by_cases h : gc = false
    · rw [if_pos h]
      exact warnM_swo
    · rw [if_neg h]
      exact SucceedsWithOps_pure ()
  have hinit : ∀ dg : Bool, SucceedsWithOps
      (if dg = false then gitInitM >>= fun _ => remoteAddM "origin" url else pure ())
      () [] := by
    intro dg
    by_cases h : dg = false
    · rw [if_pos h]
      exact SucceedsWithOps_bind gitInitM_swo (remoteAddM_swo "origin" url)
    · rw [if_neg h]
      exact SucceedsWithOps_pure ()
  exact SucceedsWithOps_bind (setStatePathM_swo s.repositoryPath)
    (swo_bind_dotGit (fun dg =>
      SucceedsWithOps_bind (hinit dg)
        (SucceedsWithOps_bind (tryDisableGCM_swo env)
          (SucceedsWithOps_bind (hwarn env.tryDisableGCOk)
            (SucceedsWithOps_bind (removeGitConfig_swo env authConfigKey)
              (tryFinallyM_swo
                (bracketBody_swo env s ci hlfs hcount hli hfe hci hlf hco hlog) hfin))))))

/-- Starting from a fresh (non-existing) path with a working gateway, the run
is exactly: create the directory, then the gateway flow. -/
theorem getSource_fresh_gateway (env : Env) (s : ISourceSettings) (w : World)
    (hpk : w.pathKind = none) (hcm : env.createCMOk s.lfs = true) :
    getSource env s w = gatewayFlow env s (repoUrl s)
      { w with pathKind := some FsKind.dir, entries := [], dotGitDir := false,
               dotGitConfigFile := false,
               trace := Op.mkdirP s.repositoryPath :: w.trace } := by
  unfold getSource
  rw [M.bind_def]
  have h1 : fileExistsM w = (Except.ok false, w) := by
    simp [fileExistsM, hpk]
  rw [h1]
  dsimp only
  rw [if_neg (by simp)]
  rw [M.bind_def, M.pure_def]
  dsimp only
  rw [M.bind_def]
  have h2 : dirExistsM w = (Except.ok false, w) := by
    simp [dirExistsM, hpk]
  rw [h2]
  dsimp only
  rw [if_pos rfl]
  rw [M.bind_def, mkdirPM]
  dsimp only
  rw [M.bind_def]
  have h3 : getGitCommandManager env s
      { w with pathKind := some FsKind.dir, entries := [], dotGitDir := false,
               dotGitConfigFile := false,
               trace := Op.mkdirP s.repositoryPath :: w.trace } =
      (Except.ok true,
        { w with pathKind := some FsKind.dir, entries := [], dotGitDir := false,
                 dotGitConfigFile := false,
                 trace := Op.mkdirP s.repositoryPath :: w.trace }) := by
    simp [getGitCommandManager, hcm]
  rw [h3]
  dsimp only
  rw [if_neg (by simp)]
  rw [M.bind_def, M.pure_def]
  dsimp only
  rw [if_neg (by simp)]

/-- C8 counterexample: the checkout info resolves to an *empty* start point.
The claim's `startPoint ?? ref` predicts an LFS prefetch of `""`, but the
source's `checkoutInfo.startPoint || checkoutInfo.ref` is falsy on the empty
string, so the code prefetches the ref `"r"` instead. -/
theorem claim_C8_cex :
    (getSource cexEnvC8 cexSettingsC8 emptyWorld).1 = Except.ok () ∧
    Op.lfsFetch ((some "").getD "r") ∉ (getSource cexEnvC8 cexSettingsC8 emptyWorld).2.trace ∧
    Op.lfsFetch "r" ∈ (getSource cexEnvC8 cexSettingsC8 emptyWorld).2.trace := by
  refine ⟨rfl, ?_, ?_⟩ <;> decide

/-- C8 (amended): with `lfs = true` and the bracketed sequence succeeding, the
LFS prefetch targets the start point when it is present *and non-empty* and
the ref otherwise (JS `||` truthiness, not `??`), and checkout is invoked with
exactly `(checkoutInfo.ref, checkoutInfo.startPoint)`. -/
theorem claim_C8 (env : Env) (s : ISourceSettings) (w : World) (ci : CheckoutInfo)
    (hpk : w.pathKind = none) (hcm : env.createCMOk s.lfs = true)
    (hlfs : s.lfs = true)
    (hcount : countOccurrences placeholderStr.data env.readConfig.data = 1)
    (hli : env.lfsInstallOk = true) (hfe : env.fetchOk = true)
    (hci : env.checkoutInfoR s.ref s.commit = Except.ok ci)
    (hlf : env.lfsFetchOk (orFalsy ci.startPoint ci.ref) = true)
    (hco : env.checkoutOk = true) (hlog : env.log1Ok = true) :
    (getSource env s w).1 = Except.ok () ∧
    Op.lfsFetch (orFalsy ci.startPoint ci.ref) ∈ (getSource env s w).2.trace ∧
    Op.checkout ci.ref ci.startPoint ∈ (getSource env s w).2.trace := by
  rw [getSource_fresh_gateway env s w hpk hcm]
  obtain ⟨w', Δ, hrun, htr, hmem⟩ :=
    gatewayFlow_swo env s (repoUrl s) ci hlfs hcount hli hfe hci hlf hco hlog
      { w with pathKind := some FsKind.dir, entries := [], dotGitDir := false,
               dotGitConfigFile := false,
               trace := Op.mkdirP s.repositoryPath :: w.trace }
  rw [hrun]
  refine ⟨rfl, ?_, ?_⟩
  · show Op.lfsFetch (orFalsy ci.startPoint ci.ref) ∈ w'.trace
    rw [htr]
    exact List.mem_append.mpr (Or.inl (hmem _ (by simp)))
  · show Op.checkout ci.ref ci.startPoint ∈ w'.trace
    rw [htr]
    exact List.mem_append.mpr (Or.inl (hmem _ (by simp)))

theorem claim_C8_witness :
    (emptyWorld.pathKind = none ∧ baseEnv.createCMOk true = true ∧
      countOccurrences placeholderStr.data baseEnv.readConfig.data = 1 ∧
      baseEnv.checkoutInfoR "refs/heads/main" "" =
        Except.ok { ref := "refs/heads/main", startPoint := none }) ∧
    (getSource baseEnv { baseSettings with lfs := true } emptyWorld).1 = Except.ok () ∧
    Op.lfsFetch "refs/heads/main" ∈
      (getSource baseEnv { baseSettings with lfs := true } emptyWorld).2.trace ∧
    Op.checkout "refs/heads/main" none ∈
      (getSource baseEnv { baseSettings with lfs := true } emptyWorld).2.trace := by
  refine ⟨⟨rfl, rfl, by decide, rfl⟩, ?_⟩
  exact claim_C8 baseEnv { baseSettings with lfs := true } emptyWorld
    { ref := "refs/heads/main", startPoint := none }
    rfl rfl rfl (by decide) rfl rfl rfl rfl rfl rfl

theorem getSource_none_run (env : Env) (s : ISourceSettings) (w : World)
    (hpk : w.pathKind = none) :
    getSource env s w = sourceTail env s
      { w with pathKind := some FsKind.dir, entries := [], dotGitDir := false,
               dotGitConfigFile := false,
               trace := Op.mkdirP s.repositoryPath :: w.trace } := by
  unfold getSource
  rw [M.bind_def]
  have h1 : fileExistsM w = (Except.ok false, w) := by
    simp [fileExistsM, hpk]
  rw [h1]
  dsimp only
  rw [if_neg (by simp), M.bind_def, M.pure_def]
  dsimp only
  rw [M.bind_def]
  have h2 : dirExistsM w = (Except.ok false, w) := by
    simp [dirExistsM, hpk]
  rw [h2]
  dsimp only
  rw [if_pos rfl, M.bind_def, mkdirPM]
  dsimp only
  rw [sourceTail, M.bind_def, M.bind_def]
  rcases hg : getGitCommandManager env s
    { w with pathKind := some FsKind.dir, entries := [], dotGitDir := false,
             dotGitConfigFile := false,
             trace := Op.mkdirP s.repositoryPath :: w.trace } with ⟨r, w1⟩
  cases r with
  | ok ga =>
    dsimp only
    rw [if_neg (by simp), M.bind_def, M.pure_def]
  | error e => rfl

theorem getSource_file_rm_run (env : Env) (s : ISourceSettings) (w : World)
    (hpk : w.pathKind = some FsKind.file) (hrm : env.rmRFOk s.repositoryPath = true) :
    getSource env s w = sourceTail env s
      { w with pathKind := some FsKind.dir, entries := [], dotGitDir := false,
               dotGitConfigFile := false, configKeys := [], configFile := [],
               trace := Op.mkdirP s.repositoryPath ::
                 Op.rmRF s.repositoryPath :: w.trace } := by
  unfold getSource
  rw [M.bind_def]
  have h1 : fileExistsM w = (Except.ok true, w) := by
    simp [fileExistsM, hpk]
  rw [h1]
  dsimp only
  rw [if_pos rfl, M.bind_def]
  have h2 : rmPathM env s.repositoryPath w =
      (Except.ok (), { w with pathKind := none, entries := [], dotGitDir := false,
                              dotGitConfigFile := false, configKeys := [], configFile := [],
                              trace := Op.rmRF s.repositoryPath :: w.trace }) := by
    simp [rmPathM, hrm]
  rw [h2]
  dsimp only
  rw [M.bind_def]
  have h3 : dirExistsM
      { w with
        pathKind := none, entries := [], dotGitDir := false,
        dotGitConfigFile := false, configKeys := [], configFile := [],
        trace := Op.rmRF s.repositoryPath :: w.trace } =
    (Except.ok false,
      { w with
        pathKind := none, entries := [], dotGitDir := false,
        dotGitConfigFile := false, configKeys := [], configFile := [],
        trace := Op.rmRF s.repositoryPath :: w.trace }) := by simp [dirExistsM]
  rw [h3]
  dsimp only
  rw [if_pos rfl, M.bind_def, mkdirPM]
  dsimp only
  rw [sourceTail, M.bind_def, M.bind_def]
  rcases hg : getGitCommandManager env s
    { w with pathKind := some FsKind.dir, entries := [], dotGitDir := false,
             dotGitConfigFile := false, configKeys := [], configFile := [],
             trace := Op.mkdirP s.repositoryPath :: Op.rmRF s.repositoryPath :: w.trace }
    with ⟨r, w1⟩
  cases r with
  | ok ga =>
    dsimp only
    rw [if_neg (by simp), M.bind_def, M.pure_def]
  | error e => rfl

theorem getSource_file_rmfail_run (env : Env) (s : ISourceSettings) (w : World)
    (hpk : w.pathKind = some FsKind.file) (hrm : env.rmRFOk s.repositoryPath = false) :
    getSource env s w =
      (Except.error (Err.rmRF s.repositoryPath), traceOp (Op.rmRF s.repositoryPath) w) := by
  unfold getSource
  rw [M.bind_def]
  have h1 : fileExistsM w = (Except.ok true, w) := by
    simp [fileExistsM, hpk]
  rw [h1]
  dsimp only
  rw [if_pos rfl, M.bind_def]
  have h2 : rmPathM env s.repositoryPath w =
      (Except.error (Err.rmRF s.repositoryPath), traceOp (Op.rmRF s.repositoryPath) w) := by
    simp [rmPathM, hrm]
  rw [h2]

theorem getSource_dir_run (env : Env) (s : ISourceSettings) (w : World)
    (hpk : w.pathKind = some FsKind.dir) :
    getSource env s w = sourceTailExisting env s w := by
  unfold getSource
  rw [M.bind_def]
  have h1 : fileExistsM w = (Except.ok false, w) := by
    simp [fileExistsM, hpk]
  rw [h1]
  dsimp only
  rw [if_neg (by simp), M.bind_def, M.pure_def]
  dsimp only
  rw [M.bind_def]
  have h2 : dirExistsM w = (Except.ok true, w) := by
    simp [dirExistsM, hpk]
  rw [h2]
  dsimp only
  rw [if_neg (by simp), M.bind_def, M.pure_def]
  dsimp only
  rw [sourceTailExisting, M.bind_def, M.bind_def]
  rcases hg : getGitCommandManager env s w with ⟨r, w1⟩
  cases r with
  | ok ga =>
    dsimp only
    rw [if_pos rfl]
  | error e => rfl

theorem sourceTail_gateway (env : Env) (s : ISourceSettings) (w : World)
    (hcm : env.createCMOk s.lfs = true) :
    sourceTail env s w = gatewayFlow env s (repoUrl s) w := by
  unfold sourceTail
  rw [M.bind_def]
  have h : getGitCommandManager env s w = (Except.ok true, w) := by
    simp [getGitCommandManager, hcm]
  rw [h]
  dsimp only
  rw [if_neg (by simp)]

theorem sourceTail_createFailed (env : Env) (s : ISourceSettings) (w : World)
    (hcm : env.createCMOk s.lfs = false) (hlfs : s.lfs = true) :
    sourceTail env s w = (Except.error Err.createFailed, w) := by
  unfold sourceTail
  rw [M.bind_def]
  have hcm2 := hcm
  rw [hlfs] at hcm2
  have h : getGitCommandManager env s w = (Except.error Err.createFailed, w) := by
    simp [getGitCommandManager, hlfs, hcm2]
  rw [h]

theorem sourceTail_download (env : Env) (s : ISourceSettings) (w : World)
    (hcm : env.createCMOk s.lfs = false) (hlfs : s.lfs = false) :
    sourceTail env s w =
      downloadRepositoryM env s.authToken s.repositoryOwner s.repositoryName s.ref s.commit
        s.repositoryPath w := by
  unfold sourceTail
  rw [M.bind_def]
  have hcm2 := hcm
  rw [hlfs] at hcm2
  have h : getGitCommandManager env s w = (Except.ok false, w) := by
    simp [getGitCommandManager, hlfs, hcm2]
  rw [h]
  dsimp only
  rw [if_pos rfl]

theorem sourceTailExisting_gateway (env : Env) (s : ISourceSettings) (w : World)
    (hcm : env.createCMOk s.lfs = true) :
    sourceTailExisting env s w =
      (prepareExistingDirectory env true s.repositoryPath (repoUrl s) s.clean >>= fun _ =>
        gatewayFlow env s (repoUrl s)) w := by
  unfold sourceTailExisting
  rw [M.bind_def]
  have h : getGitCommandManager env s w = (Except.ok true, w) := by
    simp [getGitCommandManager, hcm]
  rw [h]
  dsimp only
  rw [M.bind_def, M.bind_def]
  rcases hp : prepareExistingDirectory env true s.repositoryPath (repoUrl s) s.clean w
    with ⟨r, w1⟩
  cases r with
  | ok a =>
    dsimp only
    rw [if_neg (by simp)]
  | error e => rfl

theorem sourceTailExisting_createFailed (env : Env) (s : ISourceSettings) (w : World)
    (hcm : env.createCMOk s.lfs = false) (hlfs : s.lfs = true) :
    sourceTailExisting env s w = (Except.error Err.createFailed, w) := by
  unfold sourceTailExisting
  rw [M.bind_def]
  have hcm2 := hcm
  rw [hlfs] at hcm2
  have h : getGitCommandManager env s w = (Except.error Err.createFailed, w) := by
    simp [getGitCommandManager, hlfs, hcm2]
  rw [h]

theorem sourceTailExisting_download (env : Env) (s : ISourceSettings) (w : World)
    (hcm : env.createCMOk s.lfs = false) (hlfs : s.lfs = false) :
    sourceTailExisting env s w =
      (prepareExistingDirectory env false s.repositoryPath (repoUrl s) s.clean >>= fun _ =>
        downloadRepositoryM env s.authToken s.repositoryOwner s.repositoryName s.ref s.commit
          s.repositoryPath) w := by
  unfold sourceTailExisting
  rw [M.bind_def]
  have hcm2 := hcm
  rw [hlfs] at hcm2
  have h : getGitCommandManager env s w = (Except.ok false, w) := by
    simp [getGitCommandManager, hlfs, hcm2]
  rw [h]
  dsimp only
  rw [M.bind_def, M.bind_def]
  rcases hp : prepareExistingDirectory env false s.repositoryPath (repoUrl s) s.clean w
    with ⟨r, w1⟩
  cases r with
  | ok a =>
    dsimp only
    rw [if_pos rfl]
  | error e => rfl

/-- Whenever removal is decided structurally, `prepareExistingDirectory` is
exactly the deletion loop over the current entries (after the marker). -/
theorem prepare_trigger_run (env : Env) (gitAvail : Bool) (rp url : String) (clean : Bool)
    (w : World) (htrig : gitAvail = false ∨ w.dotGitDir = false ∨ url ≠ env.fetchUrl) :
    prepareExistingDirectory env gitAvail rp url clean w =
      deleteEntries env rp w.entries (traceOp Op.prepareInvoked w) := by
  have hd := decideRemove_trigger env gitAvail rp url clean (traceOp Op.prepareInvoked w) htrig
  unfold prepareExistingDirectory
  rw [M.bind_def, hd]
  simp [M.bind_def, readdirM, traceOp]

theorem prepare_unavail_swo (env : Env) (rp url : String) (clean : Bool)
    (hrm : ∀ p, env.rmRFOk p = true) :
    SucceedsWithOps (prepareExistingDirectory env false rp url clean) () [] := by
  intro w
  rw [prepare_trigger_run env false rp url clean w (Or.inl rfl)]
  have hall := deleteEntries_all env rp w.entries (traceOp Op.prepareInvoked w)
    (fun f _ => hrm _) (fun x hx => hx)
  obtain ⟨d, hd, _⟩ := deleteEntries_delta env rp w.entries (traceOp Op.prepareInvoked w)
  rcases hq : deleteEntries env rp w.entries (traceOp Op.prepareInvoked w) with ⟨r, w1⟩
  rw [hq] at hall hd
  dsimp only at hall hd
  rcases hall with ⟨h1, _⟩
  subst h1
  exact ⟨w1, d ++ [Op.prepareInvoked], rfl, by rw [hd] ; simp [traceOp], by simp⟩

theorem downloadRepositoryM_traces (env : Env) (tok o n r c p : String) (w : World) :
    Op.download tok o n r c p ∈ (downloadRepositoryM env tok o n r c p w).2.trace := by
  unfold downloadRepositoryM
  split <;> simp [traceOp]

theorem downloadRepositoryM_fst (env : Env) (tok o n r c p : String) (w : World) :
    ((downloadRepositoryM env tok o n r c p w).1 = Except.ok () ↔ env.downloadOk = true) ∧
    ∀ e, (downloadRepositoryM env tok o n r c p w).1 = Except.error e → e = Err.download := by
  unfold downloadRepositoryM
  by_cases h : env.downloadOk = true
  · rw [if_pos h]
    exact ⟨by simp [h], by intro e he ; cases he⟩
  · rw [if_neg h]
    constructor
    · simp only [Bool.not_eq_true] at h
      simp [h]
    · intro e he
      cases he
      rfl

/-- C5: when gateway construction fails, `getSource` propagates the
construction failure exactly when LFS was requested; with `lfs = false` it
instead delegates to the REST download with the settings' token, owner, name,
ref, commit and path, succeeding exactly when the download does. -/
theorem claim_C5 (env : Env) (s : ISourceSettings) (w : World)
    (hcm : env.createCMOk s.lfs = false) (hrm : ∀ p, env.rmRFOk p = true) :
    (s.lfs = true → (getSource env s w).1 = Except.error Err.createFailed) ∧
    (s.lfs = false →
      (getSource env s w).1 ≠ Except.error Err.createFailed ∧
      Op.download s.authToken s.repositoryOwner s.repositoryName s.ref s.commit
        s.repositoryPath ∈ (getSource env s w).2.trace ∧
      ((getSource env s w).1 = Except.ok () ↔ env.downloadOk = true)) := by
  have hdl : ∀ w1 : World,
      (downloadRepositoryM env s.authToken s.repositoryOwner s.repositoryName s.ref s.commit
        s.repositoryPath w1).1 ≠ Except.error Err.createFailed ∧
      Op.download s.authToken s.repositoryOwner s.repositoryName s.ref s.commit
        s.repositoryPath ∈ (downloadRepositoryM env s.authToken s.repositoryOwner
          s.repositoryName s.ref s.commit s.repositoryPath w1).2.trace ∧
      ((downloadRepositoryM env s.authToken s.repositoryOwner s.repositoryName s.ref s.commit
        s.repositoryPath w1).1 = Except.ok () ↔ env.downloadOk = true) := by
    intro w1
    have hf := downloadRepositoryM_fst env s.authToken s.repositoryOwner s.repositoryName
      s.ref s.commit s.repositoryPath w1
    refine ⟨?_, downloadRepositoryM_traces env s.authToken s.repositoryOwner s.repositoryName
      s.ref s.commit s.repositoryPath w1, hf.1⟩
    intro hcon
    have hcd := hf.2 Err.createFailed hcon
    cases hcd
  rcases hpk : w.pathKind with _ | k
  · constructor
    · intro hlfs
      rw [getSource_none_run env s w hpk, sourceTail_createFailed env s _ hcm hlfs]
    · intro hlfs
      rw [getSource_none_run env s w hpk, sourceTail_download env s _ hcm hlfs]
      exact hdl _
  · cases k with
    | file =>
      constructor
      · intro hlfs
        rw [getSource_file_rm_run env s w hpk (hrm _),
          sourceTail_createFailed env s _ hcm hlfs]
      · intro hlfs
        rw [getSource_file_rm_run env s w hpk (hrm _), sourceTail_download env s _ hcm hlfs]
        exact hdl _
    | dir =>
      constructor
      · intro hlfs
        rw [getSource_dir_run env s w hpk, sourceTailExisting_createFailed env s _ hcm hlfs]
      · intro hlfs
        rw [getSource_dir_run env s w hpk, sourceTailExisting_download env s _ hcm hlfs]
        obtain ⟨w1, d1, hp, htr, _⟩ :=
          prepare_unavail_swo env s.repositoryPath (repoUrl s) s.clean hrm w
        rw [M.bind_def, hp]
        exact hdl _

theorem claim_C5_witness :
    (envUnavailable.createCMOk baseSettings.lfs = false ∧
      ∀ p, envUnavailable.rmRFOk p = true) ∧
    ((baseSettings.lfs = true →
        (getSource envUnavailable baseSettings emptyWorld).1 =
          Except.error Err.createFailed) ∧
      (baseSettings.lfs = false →
        (getSource envUnavailable baseSettings emptyWorld).1 ≠
          Except.error Err.createFailed ∧
        Op.download baseSettings.authToken baseSettings.repositoryOwner
          baseSettings.repositoryName baseSettings.ref baseSettings.commit
          baseSettings.repositoryPath ∈
            (getSource envUnavailable baseSettings emptyWorld).2.trace ∧
        ((getSource envUnavailable baseSettings emptyWorld).1 = Except.ok () ↔
          envUnavailable.downloadOk = true))) := by
  exact ⟨⟨rfl, fun p => rfl⟩,
    claim_C5 envUnavailable baseSettings emptyWorld rfl (fun p => rfl)⟩

/-! ## Trace-delta and state-preservation instances -/

theorem fileExistsM_delta (P : Op → Prop) : OpsDelta fileExistsM P :=
  fun _ => ⟨[], rfl, by simp⟩

theorem dirExistsM_delta (P : Op → Prop) : OpsDelta dirExistsM P :=
  fun _ => ⟨[], rfl, by simp⟩

theorem getDotGitDirM_delta (P : Op → Prop) : OpsDelta getDotGitDirM P :=
  fun _ => ⟨[], rfl, by simp⟩

theorem readdirM_delta (P : Op → Prop) : OpsDelta readdirM P :=
  fun _ => ⟨[], rfl, by simp⟩

theorem setStatePathM_delta (p : String) (P : Op → Prop) : OpsDelta (setStatePathM p) P :=
  fun _ => ⟨[], rfl, by simp⟩

theorem getGitCommandManager_delta (env : Env) (s : ISourceSettings) (P : Op → Prop) :
    OpsDelta (getGitCommandManager env s) P := by
  intro w
  unfold getGitCommandManager
  split
  · exact ⟨[], rfl, by simp⟩
  · split
    · exact ⟨[], rfl, by simp⟩
    · exact ⟨[], rfl, by simp⟩

theorem rmPathM_delta (env : Env) (p : String) (P : Op → Prop) (h : P (Op.rmRF p)) :
    OpsDelta (rmPathM env p) P := by
  intro w
  unfold rmPathM
  split
  · exact ⟨[Op.rmRF p], rfl, by simpa⟩
  · exact ⟨[Op.rmRF p], rfl, by simpa⟩

theorem mkdirPM_delta (p : String) (P : Op → Prop) (h : P (Op.mkdirP p)) :
    OpsDelta (mkdirPM p) P :=
  fun _ => ⟨[Op.mkdirP p], rfl, by simpa⟩

theorem gitInitM_delta (P : Op → Prop) (h : P Op.gitInit) : OpsDelta gitInitM P :=
  fun _ => ⟨[Op.gitInit], rfl, by simpa⟩

theorem remoteAddM_delta (n u : String) (P : Op → Prop) (h : P (Op.remoteAdd n u)) :
    OpsDelta (remoteAddM n u) P :=
  fun _ => ⟨[Op.remoteAdd n u], rfl, by simpa⟩

theorem tryDisableGCM_delta (env : Env) (P : Op → Prop) (h : P Op.disableGC) :
    OpsDelta (tryDisableAutomaticGarbageCollectionM env) P :=
  fun _ => ⟨[Op.disableGC], rfl, by simpa⟩

theorem warnM_delta (P : Op → Prop) (h : P Op.warning) : OpsDelta warnM P :=
  fun _ => ⟨[Op.warning], rfl, by simpa⟩

theorem removeGitConfig_delta (env : Env) (key : String) (P : Op → Prop)
    (h1 : P (Op.configUnsetAttempt key)) (h2 : P Op.warning) :
    OpsDelta (removeGitConfig env key) P := by
  intro w
  rw [removeGitConfig_run]
  by_cases hc : key ∈ w.configKeys
  · rw [if_pos hc]
    by_cases hu : env.tryConfigUnsetOk
    · rw [if_pos hu]
      refine ⟨[Op.configUnsetAttempt key], rfl, ?_⟩
      intro op hop
      rw [List.mem_singleton.mp hop]
      exact h1
    · rw [if_neg hu]
      refine ⟨[Op.warning, Op.configUnsetAttempt key], rfl, ?_⟩
      intro op hop
      rcases List.mem_cons.mp hop with h | h
      · rw [h] ; exact h2
      · rw [List.mem_singleton.mp h] ; exact h1
  · rw [if_neg hc]
    exact ⟨[], rfl, by simp⟩

theorem throwM_delta {α : Type} (e : Err) (P : Op → Prop) : OpsDelta (throwM e : M α) P :=
  fun _ => ⟨[], rfl, by simp⟩

theorem configSetM_delta (k v : String) (P : Op → Prop) (h : P (Op.configSet k v)) :
    OpsDelta (configSetM k v) P :=
  fun _ => ⟨[Op.configSet k v], rfl, by simpa⟩

theorem setSecretM_delta (v : String) (P : Op → Prop) (h : P (Op.setSecret v)) :
    OpsDelta (setSecretM v) P :=
  fun _ => ⟨[Op.setSecret v], rfl, by simpa⟩

theorem writeConfigM_delta (c : List Char) (P : Op → Prop)
    (h : P (Op.writeConfig (String.mk c))) : OpsDelta (writeConfigM c) P :=
  fun _ => ⟨[Op.writeConfig (String.mk c)], rfl, by simpa⟩

theorem configureAuthToken_delta (env : Env) (tok : String) (P : Op → Prop)
    (h1 : ∀ k v, P (Op.configSet k v)) (h2 : ∀ v, P (Op.setSecret v))
    (h3 : ∀ c, P (Op.writeConfig c)) : OpsDelta (configureAuthToken env tok) P := by
  unfold configureAuthToken
  refine OpsDelta_bind (configSetM_delta _ _ P (h1 _ _)) (fun _ => ?_)
  refine OpsDelta_bind (setSecretM_delta _ P (h2 _)) (fun _ => ?_)
  exact OpsDelta_ite (throwM_delta _ P) (writeConfigM_delta _ P (h3 _))

theorem lfsInstallM_delta (env : Env) (P : Op → Prop) (h : P Op.lfsInstall) :
    OpsDelta (lfsInstallM env) P := by
  intro w
  unfold lfsInstallM
  split
  · exact ⟨[Op.lfsInstall], rfl, by simpa⟩
  · exact ⟨[Op.lfsInstall], rfl, by simpa⟩

theorem fetchM_delta (env : Env) (d : Nat) (rs : List String) (P : Op → Prop)
    (h : P (Op.fetch d rs)) : OpsDelta (fetchM env d rs) P := by
  intro w
  unfold fetchM
  split
  · exact ⟨[Op.fetch d rs], rfl, by simpa⟩
  · exact ⟨[Op.fetch d rs], rfl, by simpa⟩

theorem getCheckoutInfoM_delta (env : Env) (r c : String) (P : Op → Prop) :
    OpsDelta (getCheckoutInfoM env r c) P := by
  intro w
  unfold getCheckoutInfoM
  cases env.checkoutInfoR r c
  · exact ⟨[], rfl, by simp⟩
  · exact ⟨[], rfl, by simp⟩

theorem lfsFetchM_delta (env : Env) (t : String) (P : Op → Prop) (h : P (Op.lfsFetch t)) :
    OpsDelta (lfsFetchM env t) P := by
  intro w
  unfold lfsFetchM
  split
  · exact ⟨[Op.lfsFetch t], rfl, by simpa⟩
  · exact ⟨[Op.lfsFetch t], rfl, by simpa⟩

theorem checkoutM_delta (env : Env) (r : String) (sp : Option String) (P : Op → Prop)
    (h : P (Op.checkout r sp)) : OpsDelta (checkoutM env r sp) P := by
  intro w
  unfold checkoutM
  split
  · exact ⟨[Op.checkout r sp], rfl, by simpa⟩
  · exact ⟨[Op.checkout r sp], rfl, by simpa⟩

theorem log1M_delta (env : Env) (P : Op → Prop) (h : P Op.log1) : OpsDelta (log1M env) P := by
  intro w
  unfold log1M
  split
  · exact ⟨[Op.log1], rfl, by simpa⟩
  · exact ⟨[Op.log1], rfl, by simpa⟩

theorem downloadRepositoryM_delta (env : Env) (tok o n r c p : String) (P : Op → Prop)
    (h : P (Op.download tok o n r c p)) : OpsDelta (downloadRepositoryM env tok o n r c p) P := by
  intro w
  unfold downloadRepositoryM
  split
  · exact ⟨[Op.download tok o n r c p], rfl, by simpa⟩
  · exact ⟨[Op.download tok o n r c p], rfl, by simpa⟩

theorem tryFinallyM_delta {α : Type} {body : M α} {fin : M Unit} {P : Op → Prop}
    (hb : OpsDelta body P) (hf : OpsDelta fin P) : OpsDelta (tryFinallyM body fin) P := by
  intro w
  obtain ⟨d1, h1, hp1⟩ := hb w
  rcases hbw : body w with ⟨rb, w1⟩
  rw [hbw] at h1
  dsimp only at h1
  obtain ⟨d2, h2, hp2⟩ := hf w1
  rcases hfw : fin w1 with ⟨rf, w2⟩
  rw [hfw] at h2
  dsimp only at h2
  have hmem : ∀ op ∈ d2 ++ d1, P op := by
    intro op hop
    rcases List.mem_append.mp hop with h | h
    exacts [hp2 op h, hp1 op h]
  unfold tryFinallyM
  rw [hbw]
  cases rb with
  | ok a =>
    dsimp only
    rw [hfw]
    cases rf with
    | ok u =>
      exact ⟨d2 ++ d1, by show w2.trace = _ ; rw [h2, h1, List.append_assoc], hmem⟩
    | error e =>
      exact ⟨d2 ++ d1, by show w2.trace = _ ; rw [h2, h1, List.append_assoc], hmem⟩
  | error e =>
    dsimp only
    rw [hfw]
    cases rf with
    | ok u =>
      exact ⟨d2 ++ d1, by show w2.trace = _ ; rw [h2, h1, List.append_assoc], hmem⟩
    | error e2 =>
      exact ⟨d2 ++ d1, by show w2.trace = _ ; rw [h2, h1, List.append_assoc], hmem⟩

theorem bracketBody_delta (env : Env) (s : ISourceSettings) (P : Op → Prop)
    (h1 : ∀ k v, P (Op.configSet k v)) (h2 : ∀ v, P (Op.setSecret v))
    (h3 : ∀ c, P (Op.writeConfig c)) (h4 : P Op.lfsInstall)
    (h5 : ∀ d rs, P (Op.fetch d rs)) (h6 : ∀ t, P (Op.lfsFetch t))
    (h7 : ∀ r sp, P (Op.checkout r sp)) (h8 : P Op.log1) :
    OpsDelta (bracketBody env s) P := by
  unfold bracketBody
  refine OpsDelta_bind (configureAuthToken_delta env s.authToken P h1 h2 h3) (fun _ => ?_)
  refine OpsDelta_bind (OpsDelta_ite (lfsInstallM_delta env P h4) (OpsDelta_pure () P))
    (fun _ => ?_)
  refine OpsDelta_bind (fetchM_delta env _ _ P (h5 _ _)) (fun _ => ?_)
  refine OpsDelta_bind (getCheckoutInfoM_delta env _ _ P) (fun ci => ?_)
  refine OpsDelta_bind (OpsDelta_ite (lfsFetchM_delta env _ P (h6 _)) (OpsDelta_pure () P))
    (fun _ => ?_)
  refine OpsDelta_bind (checkoutM_delta env _ _ P (h7 _ _)) (fun _ => ?_)
  exact log1M_delta env P h8

theorem gatewayFlow_delta (env : Env) (s : ISourceSettings) (url : String) (P : Op → Prop)
    (h1 : ∀ k v, P (Op.configSet k v)) (h2 : ∀ v, P (Op.setSecret v))
    (h3 : ∀ c, P (Op.writeConfig c)) (h4 : P Op.lfsInstall)
    (h5 : ∀ d rs, P (Op.fetch d rs)) (h6 : ∀ t, P (Op.lfsFetch t))
    (h7 : ∀ r sp, P (Op.checkout r sp)) (h8 : P Op.log1)
    (h9 : P Op.gitInit) (h10 : ∀ n u, P (Op.remoteAdd n u)) (h11 : P Op.disableGC)
    (h12 : P Op.warning) (h13 : ∀ k, P (Op.configUnsetAttempt k)) :
    OpsDelta (gatewayFlow env s url) P := by
  unfold gatewayFlow
  refine OpsDelta_bind (setStatePathM_delta _ P) (fun _ => ?_)
  refine OpsDelta_bind (getDotGitDirM_delta P) (fun dg => ?_)
  refine OpsDelta_bind (OpsDelta_ite
    (OpsDelta_bind (gitInitM_delta P h9) (fun _ => remoteAddM_delta _ _ P (h10 _ _)))
    (OpsDelta_pure () P)) (fun _ => ?_)
  refine OpsDelta_bind (tryDisableGCM_delta env P h11) (fun gc => ?_)
  refine OpsDelta_bind (OpsDelta_ite (warnM_delta P h12) (OpsDelta_pure () P)) (fun _ => ?_)
  refine OpsDelta_bind (removeGitConfig_delta env _ P (h13 _) h12) (fun _ => ?_)
  exact tryFinallyM_delta (bracketBody_delta env s P h1 h2 h3 h4 h5 h6 h7 h8)
    (OpsDelta_ite (OpsDelta_pure () P) (removeGitConfig_delta env _ P (h13 _) h12))

/-- C9: when the target path exists as a non-directory file, the file is
removed recursively and a fresh directory is created in its place
(both operations appear in the trace), and the directory reconciler
`prepareExistingDirectory` is never invoked during the run. -/
theorem claim_C9 (env : Env) (s : ISourceSettings) (w : World)
    (hpk : w.pathKind = some FsKind.file)
    (hrm : env.rmRFOk s.repositoryPath = true)
    (hmark : Op.prepareInvoked ∉ w.trace) :
    Op.rmRF s.repositoryPath ∈ (getSource env s w).2.trace ∧
    Op.mkdirP s.repositoryPath ∈ (getSource env s w).2.trace ∧
    Op.prepareInvoked ∉ (getSource env s w).2.trace := by
  rw [getSource_file_rm_run env s w hpk hrm]
  have hdelta : OpsDelta (sourceTail env s) (fun op => op ≠ Op.prepareInvoked) := by
    unfold sourceTail
    refine OpsDelta_bind (getGitCommandManager_delta env s _) (fun ga => ?_)
    refine OpsDelta_ite ?_ ?_
    · exact downloadRepositoryM_delta env _ _ _ _ _ _ _ (by simp)
    · exact gatewayFlow_delta env s (repoUrl s) _ (fun k v => by simp) (fun v => by simp)
        (fun c => by simp) (by simp) (fun d rs => by simp) (fun t => by simp)
        (fun r sp => by simp) (by simp) (by simp) (fun n u => by simp) (by simp)
        (by simp) (fun k => by simp)
  obtain ⟨Δ, htr, hP⟩ := hdelta
    { w with pathKind := some FsKind.dir, entries := [], dotGitDir := false,
             dotGitConfigFile := false, configKeys := [], configFile := [],
             trace := Op.mkdirP s.repositoryPath :: Op.rmRF s.repositoryPath :: w.trace }
  rw [htr]
  refine ⟨?_, ?_, ?_⟩
  · exact List.mem_append.mpr (Or.inr (by simp))
  · exact List.mem_append.mpr (Or.inr (by simp))
  · intro hmem
    rcases List.mem_append.mp hmem with h | h
    · exact hP _ h rfl
    · rcases List.mem_cons.mp h with h1 | h1
      · cases h1
      · rcases List.mem_cons.mp h1 with h2 | h2
        · cases h2
        · exact hmark h2

theorem claim_C9_witness :
    (({ emptyWorld with pathKind := some FsKind.file } : World).pathKind =
        some FsKind.file ∧
      baseEnv.rmRFOk baseSettings.repositoryPath = true ∧
      Op.prepareInvoked ∉ ({ emptyWorld with pathKind := some FsKind.file } : World).trace) ∧
    Op.rmRF baseSettings.repositoryPath ∈
      (getSource baseEnv baseSettings
        { emptyWorld with pathKind := some FsKind.file }).2.trace ∧
    Op.mkdirP baseSettings.repositoryPath ∈
      (getSource baseEnv baseSettings
        { emptyWorld with pathKind := some FsKind.file }).2.trace ∧
    Op.prepareInvoked ∉
      (getSource baseEnv baseSettings
        { emptyWorld with pathKind := some FsKind.file }).2.trace := by
  refine ⟨⟨rfl, rfl, by simp [emptyWorld]⟩, ?_⟩
  exact claim_C9 baseEnv baseSettings { emptyWorld with pathKind := some FsKind.file }
    rfl rfl (by simp [emptyWorld])

theorem deleteEntries_delta_p (env : Env) (rp : String) (P : Op → Prop)
    (hP : ∀ p, P (Op.rmRF p)) : ∀ files, OpsDelta (deleteEntries env rp files) P := by
  intro files
  induction files with
  | nil => exact OpsDelta_pure () P
  | cons f rest ih =>
    refine OpsDelta_bind ?_ (fun _ => ih)
    intro w
    unfold deleteEntryM
    split
    · refine ⟨[Op.rmRF (pathJoin rp f)], ?_, ?_⟩
      · show (applyDeleteEntry rp f w).trace = _
        rw [applyDeleteEntry_trace]
        rfl
      · intro op hop
        rw [List.mem_singleton.mp hop]
        exact hP _
    · refine ⟨[Op.rmRF (pathJoin rp f)], rfl, ?_⟩
      intro op hop
      rw [List.mem_singleton.mp hop]
      exact hP _

theorem prepare_unavail_delta (env : Env) (rp url : String) (clean : Bool) (P : Op → Prop)
    (hP1 : ∀ p, P (Op.rmRF p)) (hP2 : P Op.prepareInvoked) :
    OpsDelta (prepareExistingDirectory env false rp url clean) P := by
  intro w
  rw [prepare_trigger_run env false rp url clean w (Or.inl rfl)]
  obtain ⟨d, hd, hp⟩ := deleteEntries_delta_p env rp P hP1 w.entries
    (traceOp Op.prepareInvoked w)
  refine ⟨d ++ [Op.prepareInvoked], ?_, ?_⟩
  · rw [hd]
    simp [traceOp, List.append_assoc]
  · intro op hop
    rcases List.mem_append.mp hop with h | h
    · exact hp op h
    · rw [List.mem_singleton.mp h]
      exact hP2

theorem delta_bind_getCM {β : Type} {f : Bool → M β} {P : Op → Prop} (env : Env)
    (s : ISourceSettings) (hcm : env.createCMOk false = false) (hlfs : s.lfs = false)
    (hf : OpsDelta (f false) P) : OpsDelta (getGitCommandManager env s >>= f) P := by
  intro w
  have hg : getGitCommandManager env s w = (Except.ok false, w) := by
    simp [getGitCommandManager, hlfs, hcm]
  rw [M.bind_def, hg]
  exact hf w

theorem fileExistsM_keeps : KeepsStatePath fileExistsM := fun _ => rfl

theorem dirExistsM_keeps : KeepsStatePath dirExistsM := fun _ => rfl

theorem rmPathM_keeps (env : Env) (p : String) : KeepsStatePath (rmPathM env p) := by
  intro w
  unfold rmPathM
  split <;> rfl

theorem mkdirPM_keeps (p : String) : KeepsStatePath (mkdirPM p) := fun _ => rfl

theorem downloadRepositoryM_keeps (env : Env) (tok o n r c p : String) :
    KeepsStatePath (downloadRepositoryM env tok o n r c p) := by
  intro w
  unfold downloadRepositoryM
  split <;> rfl

theorem deleteEntries_keeps (env : Env) (rp : String) :
    ∀ files, KeepsStatePath (deleteEntries env rp files) := by
  intro files
  induction files with
  | nil => exact KeepsStatePath_pure ()
  | cons f rest ih =>
    refine KeepsStatePath_bind ?_ (fun _ => ih)
    intro w
    unfold deleteEntryM
    split
    · exact applyDeleteEntry_statePath rp f w
    · rfl

theorem prepare_unavail_keeps (env : Env) (rp url : String) (clean : Bool) :
    KeepsStatePath (prepareExistingDirectory env false rp url clean) := by
  intro w
  rw [prepare_trigger_run env false rp url clean w (Or.inl rfl)]
  exact deleteEntries_keeps env rp w.entries (traceOp Op.prepareInvoked w)

theorem keeps_bind_getCM {β : Type} {f : Bool → M β} (env : Env) (s : ISourceSettings)
    (hcm : env.createCMOk false = false) (hlfs : s.lfs = false)
    (hf : KeepsStatePath (f false)) : KeepsStatePath (getGitCommandManager env s >>= f) := by
  intro w
  have hg : getGitCommandManager env s w = (Except.ok false, w) := by
    simp [getGitCommandManager, hlfs, hcm]
  rw [M.bind_def, hg]
  exact hf w

/-- C10: in REST-fallback mode (gateway construction fails, `lfs = false`),
`getSource` never records the path in the cross-call state store, performs no
git-config operation (no config set, no unset attempt, no secret registration,
no config-file write — in particular `configureAuthToken` is never invoked),
and the auth token flows only into the single download call; when deletions
succeed the download call is in fact issued. -/
theorem claim_C10 (env : Env) (s : ISourceSettings) (w : World)
    (hcm : env.createCMOk false = false) (hlfs : s.lfs = false) :
    (getSource env s w).2.statePath = w.statePath ∧
    (∃ Δ, (getSource env s w).2.trace = Δ ++ w.trace ∧ ∀ op ∈ Δ, restOp s op) ∧
    ((∀ p, env.rmRFOk p = true) →
      Op.download s.authToken s.repositoryOwner s.repositoryName s.ref s.commit
        s.repositoryPath ∈ (getSource env s w).2.trace) := by
  refine ⟨?_, ?_, ?_⟩
  · have hkeeps : KeepsStatePath (getSource env s) := by
      unfold getSource
      refine KeepsStatePath_bind fileExistsM_keeps (fun fe => ?_)
      refine KeepsStatePath_bind
        (KeepsStatePath_ite (rmPathM_keeps env _) (KeepsStatePath_pure ())) (fun _ => ?_)
      refine KeepsStatePath_bind dirExistsM_keeps (fun ex => ?_)
      refine KeepsStatePath_bind
        (KeepsStatePath_ite (mkdirPM_keeps _) (KeepsStatePath_pure ())) (fun _ => ?_)
      refine keeps_bind_getCM env s hcm hlfs ?_
      refine KeepsStatePath_bind
        (KeepsStatePath_ite (prepare_unavail_keeps env _ _ _) (KeepsStatePath_pure ()))
        (fun _ => ?_)
      rw [if_pos rfl]
      exact downloadRepositoryM_keeps env _ _ _ _ _ _
    exact hkeeps w
  · have hdelta : OpsDelta (getSource env s) (restOp s) := by
      unfold getSource
      refine OpsDelta_bind (fileExistsM_delta _) (fun fe => ?_)
      refine OpsDelta_bind
        (OpsDelta_ite (rmPathM_delta env _ _ (Or.inl ⟨_, rfl⟩)) (OpsDelta_pure () _))
        (fun _ => ?_)
      refine OpsDelta_bind (dirExistsM_delta _) (fun ex => ?_)
      refine OpsDelta_bind
        (OpsDelta_ite (mkdirPM_delta _ _ (Or.inr (Or.inl ⟨_, rfl⟩))) (OpsDelta_pure () _))
        (fun _ => ?_)
      refine delta_bind_getCM env s hcm hlfs ?_
      refine OpsDelta_bind
        (OpsDelta_ite
          (prepare_unavail_delta env _ _ _ _ (fun p => Or.inl ⟨p, rfl⟩)
            (Or.inr (Or.inr (Or.inl rfl))))
          (OpsDelta_pure () _))
        (fun _ => ?_)
      rw [if_pos rfl]
      exact downloadRepositoryM_delta env _ _ _ _ _ _ _ (Or.inr (Or.inr (Or.inr rfl)))
    exact hdelta w
  · intro hrm
    rcases hpk : w.pathKind with _ | k
    · rw [getSource_none_run env s w hpk, sourceTail_download env s _ ?hc hlfs]
      case hc =>
        rw [hlfs]
        exact hcm
      exact downloadRepositoryM_traces env _ _ _ _ _ _ _
    · cases k with
      | file =>
        rw [getSource_file_rm_run env s w hpk (hrm _), sourceTail_download env s _ ?hc2 hlfs]
        case hc2 =>
          rw [hlfs]
          exact hcm
        exact downloadRepositoryM_traces env _ _ _ _ _ _ _
      | dir =>
        rw [getSource_dir_run env s w hpk, sourceTailExisting_download env s _ ?hc3 hlfs]
        case hc3 =>
          rw [hlfs]
          exact hcm
        obtain ⟨w1, d1, hp, htr, _⟩ :=
          prepare_unavail_swo env s.repositoryPath (repoUrl s) s.clean hrm w
        rw [M.bind_def, hp]
        exact downloadRepositoryM_traces env _ _ _ _ _ _ _

theorem claim_C10_witness :
    (envUnavailable.createCMOk false = false ∧ baseSettings.lfs = false) ∧
    (getSource envUnavailable baseSettings repoWorld).2.statePath = repoWorld.statePath ∧
    (∃ Δ, (getSource envUnavailable baseSettings repoWorld).2.trace = Δ ++ repoWorld.trace ∧
      ∀ op ∈ Δ, restOp baseSettings op) ∧
    ((∀ p, envUnavailable.rmRFOk p = true) →
      Op.download baseSettings.authToken baseSettings.repositoryOwner
        baseSettings.repositoryName baseSettings.ref baseSettings.commit
        baseSettings.repositoryPath ∈
        (getSource envUnavailable baseSettings repoWorld).2.trace) := by
  exact ⟨⟨rfl, rfl⟩, claim_C10 envUnavailable baseSettings repoWorld rfl rfl⟩

theorem EndsKeyAbsent_bind {α β : Type} {m : M α} {f : α → M β}
    (htot : ∀ w, ∃ a w', m w = (Except.ok a, w')) (hk : ∀ a, EndsKeyAbsent (f a)) :
    EndsKeyAbsent (m >>= f) := by
  intro w
  obtain ⟨a, w', hm⟩ := htot w
  rw [M.bind_def, hm]
  exact hk a w'

theorem removeGitConfig_total (env : Env) (key : String) (w : World) :
    ∃ a w', removeGitConfig env key w = (Except.ok a, w') := by
  rw [removeGitConfig_run]
  split
  · split
    · exact ⟨(), _, rfl⟩
    · exact ⟨(), _, rfl⟩
  · exact ⟨(), _, rfl⟩

theorem tryFinally_removeGC_endsAbsent {α : Type} (env : Env) (body : M α)
    (hu : env.tryConfigUnsetOk = true) :
    EndsKeyAbsent (tryFinallyM body (removeGitConfig env authConfigKey)) := by
  intro w
  unfold tryFinallyM
  rcases hb : body w with ⟨rb, w1⟩
  cases rb with
  | ok a =>
    try dsimp only
    have hnot := removeGitConfig_notMem env authConfigKey w1 hu
    rcases hf : removeGitConfig env authConfigKey w1 with ⟨rf, w2⟩
    rw [hf] at hnot
    cases rf with
    | ok u => exact hnot
    | error e => exact hnot
  | error e =>
    try dsimp only
    have hnot := removeGitConfig_notMem env authConfigKey w1 hu
    rcases hf : removeGitConfig env authConfigKey w1 with ⟨rf, w2⟩
    rw [hf] at hnot
    cases rf with
    | ok u => exact hnot
    | error e2 => exact hnot

theorem gatewayFlow_endsAbsent (env : Env) (s : ISourceSettings) (url : String)
    (hp : s.persistCredentials = false) (hu : env.tryConfigUnsetOk = true) :
    EndsKeyAbsent (gatewayFlow env s url) := by
  unfold gatewayFlow
  refine EndsKeyAbsent_bind (fun w => ⟨(), _, rfl⟩) (fun _ => ?_)
  refine EndsKeyAbsent_bind (fun w => ⟨w.dotGitDir, w, rfl⟩) (fun dg => ?_)
  refine EndsKeyAbsent_bind (fun w => ?_) (fun _ => ?_)
  · by_cases h : dg = false
    · rw [if_pos h]
      exact ⟨(), _, rfl⟩
    · rw [if_neg h]
      exact ⟨(), w, rfl⟩
  · refine EndsKeyAbsent_bind (fun w => ⟨env.tryDisableGCOk, _, rfl⟩) (fun gc => ?_)
    refine EndsKeyAbsent_bind (fun w => ?_) (fun _ => ?_)
    · by_cases h : gc = false
      · rw [if_pos h]
        exact ⟨(), _, rfl⟩
      · rw [if_neg h]
        exact ⟨(), w, rfl⟩
    · refine EndsKeyAbsent_bind (removeGitConfig_total env authConfigKey) (fun _ => ?_)
      rw [hp, if_neg (by simp)]
      exact tryFinally_removeGC_endsAbsent env (bracketBody env s) hu

/-! ## Errors of the reconciler are deletion errors -/

theorem rmLockM_total (env : Env) (p : String) (w : World) :
    ∃ w', rmLockM env p w = (Except.ok (), w') := by
  unfold rmLockM
  split
  · exact ⟨_, rfl⟩
  · exact ⟨_, rfl⟩

theorem decideRemove_ok (env : Env) (ga : Bool) (rp url : String) (clean : Bool) (w : World) :
    ∃ b w', decideRemove env ga rp url clean w = (Except.ok b, w') := by
  unfold decideRemove
  split
  · exact ⟨true, w, rfl⟩
  · split
    · exact ⟨true, w, rfl⟩
    · split
      · exact ⟨true, w, rfl⟩
      · obtain ⟨wa, h1⟩ := rmLockM_total env (pathJoin (pathJoin rp ".git") "index.lock") w
        rw [M.bind_def, h1]
        show ∃ b w',
          (rmLockM env (pathJoin (pathJoin rp ".git") "shallow.lock") >>= fun _ =>
            reuseOrRecreate env clean) wa = (Except.ok b, w')
        obtain ⟨wb, h2⟩ := rmLockM_total env (pathJoin (pathJoin rp ".git") "shallow.lock") wa
        rw [M.bind_def, h2]
        show ∃ b w', reuseOrRecreate env clean wb = (Except.ok b, w')
        exact reuseOrRecreate_ok env clean wb

theorem deleteEntries_err (env : Env) (rp : String) :
    ∀ (files : List String) (w : World) (e : Err),
      (deleteEntries env rp files w).1 = Except.error e → ∃ p, e = Err.rmRF p := by
  intro files
  induction files with
  | nil =>
    intro w e h
    cases h
  | cons f rest ih =>
    intro w e h
    rw [deleteEntries, M.bind_def] at h
    rcases hd : deleteEntryM env rp f w with ⟨rd, w1⟩
    rw [hd] at h
    cases rd with
    | ok a =>
      try dsimp only at h
      exact ih w1 e h
    | error e2 =>
      try dsimp only at h
      have he2 : ∃ p, e2 = Err.rmRF p := by
        unfold deleteEntryM at hd
        by_cases hok : env.rmRFOk (pathJoin rp f) = true
        · rw [if_pos hok] at hd
          cases hd
        · rw [if_neg hok] at hd
          injection hd with hd1 hd2
          injection hd1 with hd3
          exact ⟨pathJoin rp f, hd3.symm⟩
      cases h
      exact he2

theorem prepare_err (env : Env) (ga : Bool) (rp url : String) (clean : Bool) (w : World)
    (e : Err) (h : (prepareExistingDirectory env ga rp url clean w).1 = Except.error e) :
    ∃ p, e = Err.rmRF p := by
  unfold prepareExistingDirectory at h
  rw [M.bind_def] at h
  obtain ⟨b, w1, hd⟩ := decideRemove_ok env ga rp url clean (traceOp Op.prepareInvoked w)
  rw [hd] at h
  dsimp only at h
  by_cases hb : b = true
  · rw [if_pos hb] at h
    exact deleteEntries_err env rp w1.entries w1 e h
  · rw [if_neg hb] at h
    cases h

/-! ## Full removal clears the config store -/

theorem applyDeleteEntry_keys (rp f : String) (w : World) :
    (applyDeleteEntry rp f w).configKeys = if f = ".git" then [] else w.configKeys := by
  unfold applyDeleteEntry
  split <;> rfl

theorem deleteEntries_keys_cases (env : Env) (rp : String) :
    ∀ (files : List String) (w : World),
      (deleteEntries env rp files w).2.configKeys = w.configKeys ∨
      (deleteEntries env rp files w).2.configKeys = [] := by
  intro files
  induction files with
  | nil =>
    intro w
    exact Or.inl rfl
  | cons f rest ih =>
    intro w
    rw [deleteEntries, M.bind_def]
    rcases hd : deleteEntryM env rp f w with ⟨rd, w1⟩
    have hk1 : w1.configKeys = w.configKeys ∨ w1.configKeys = [] := by
      unfold deleteEntryM at hd
      by_cases hok : env.rmRFOk (pathJoin rp f) = true
      · rw [if_pos hok] at hd
        injection hd with hd1 hd2
        rw [← hd2, applyDeleteEntry_keys]
        by_cases hg : f = ".git"
        · rw [if_pos hg]
          exact Or.inr rfl
        · rw [if_neg hg]
          exact Or.inl rfl
      · rw [if_neg hok] at hd
        injection hd with hd1 hd2
        rw [← hd2]
        exact Or.inl rfl
    cases rd with
    | ok a =>
      dsimp only
      rcases ih w1 with h | h <;> rcases hk1 with h1 | h1
      · exact Or.inl (h.trans h1)
      · exact Or.inr (h.trans h1)
      · exact Or.inr h
      · exact Or.inr h
    | error e =>
      dsimp only
      exact hk1

theorem deleteEntries_clearKey (env : Env) (rp : String) :
    ∀ (files : List String) (w : World),
      (deleteEntries env rp files w).1 = Except.ok () →
      (authConfigKey ∈ w.configKeys → ".git" ∈ files) →
      authConfigKey ∉ (deleteEntries env rp files w).2.configKeys := by
  intro files
  induction files with
  | nil =>
    intro w _ hcov hmem
    exact (by simp : (".git" : String) ∉ ([] : List String)) (hcov hmem)
  | cons f rest ih =>
    intro w hok0 hcov
    rw [deleteEntries, M.bind_def] at hok0 ⊢
    rcases hd : deleteEntryM env rp f w with ⟨rd, w1⟩
    rw [hd] at hok0
    cases rd with
    | ok a =>
      try dsimp only at hok0
      try dsimp only
      have hok2 : env.rmRFOk (pathJoin rp f) = true := by
        by_contra hc
        unfold deleteEntryM at hd
        rw [if_neg hc] at hd
        cases hd
      have hw1 : w1 = applyDeleteEntry rp f w := by
        unfold deleteEntryM at hd
        rw [if_pos hok2] at hd
        injection hd with hd1 hd2
        exact hd2.symm
      by_cases hg : f = ".git"
      · have hk1 : w1.configKeys = [] := by
          rw [hw1, applyDeleteEntry_keys, if_pos hg]
        rcases deleteEntries_keys_cases env rp rest w1 with h | h
        · rw [h, hk1]
          simp
        · rw [h]
          simp
      · refine ih w1 hok0 ?_
        intro hmem
        have hmem0 : authConfigKey ∈ w.configKeys := by
          rw [hw1, applyDeleteEntry_keys, if_neg hg] at hmem
          exact hmem
        rcases List.mem_cons.mp (hcov hmem0) with h | h
        · exact absurd h.symm hg
        · exact h
    | error e =>
      try dsimp only at hok0
      cases hok0

theorem prepare_unavail_clearKey (env : Env) (rp url : String) (clean : Bool) (w : World)
    (hok : (prepareExistingDirectory env false rp url clean w).1 = Except.ok ())
    (hmem : authConfigKey ∈ w.configKeys → ".git" ∈ w.entries) :
    authConfigKey ∉ (prepareExistingDirectory env false rp url clean w).2.configKeys := by
  rw [prepare_trigger_run env false rp url clean w (Or.inl rfl)] at hok ⊢
  exact deleteEntries_clearKey env rp w.entries (traceOp Op.prepareInvoked w) hok hmem

theorem downloadRepositoryM_keys (env : Env) (tok o n r c p : String) (w : World) :
    (downloadRepositoryM env tok o n r c p w).2.configKeys = w.configKeys := by
  unfold downloadRepositoryM
  split <;> rfl

/-- C1 counterexample: with `persistCredentials = false` but the config-unset
primitive failing, `getSource` returns normally while the auth config entry it
created is still present — the finally-block removal is best-effort only. -/
theorem claim_C1_cex :
    baseSettings.persistCredentials = false ∧
    (getSource cexEnvC1 baseSettings emptyWorld).1 = Except.ok () ∧
    authConfigKey ∈ (getSource cexEnvC1 baseSettings emptyWorld).2.configKeys := by
  refine ⟨rfl, rfl, by decide⟩

/-- C1 (amended): for settings with `persistCredentials = false`, *provided the
config-unset primitive succeeds whenever invoked* and the starting state is
consistent (the auth key can only be present in an existing repository
directory), after `getSource` returns normally or propagates an error from the
bracketed sequence (placeholder substitution or a git operation), no config
entry exists under the fixed auth key: the finally-block removal runs on every
exit path of the bracket. -/
theorem claim_C1 (env : Env) (s : ISourceSettings) (w : World)
    (hp : s.persistCredentials = false)
    (hu : env.tryConfigUnsetOk = true)
    (hcons : authConfigKey ∈ w.configKeys →
      w.pathKind = some FsKind.dir ∧ ".git" ∈ w.entries) :
    ((getSource env s w).1 = Except.ok () ∨
      (getSource env s w).1 = Except.error Err.placeholder ∨
      (∃ n, (getSource env s w).1 = Except.error (Err.gitOp n))) →
    authConfigKey ∉ (getSource env s w).2.configKeys := by
  intro hscope
  rcases hpk : w.pathKind with _ | k
  · -- fresh path
    have hkey : authConfigKey ∉ w.configKeys := by
      intro hmem
      have h := (hcons hmem).1
      rw [hpk] at h
      cases h
    rw [getSource_none_run env s w hpk] at hscope ⊢
    cases hcm : env.createCMOk s.lfs with
    | true =>
      rw [sourceTail_gateway env s _ hcm]
      exact gatewayFlow_endsAbsent env s (repoUrl s) hp hu _
    | false =>
      cases hlfs : s.lfs with
      | true =>
        rw [sourceTail_createFailed env s _ hcm hlfs] at hscope
        rcases hscope with h | h | ⟨n, h⟩ <;> cases h
      | false =>
        rw [sourceTail_download env s _ hcm hlfs]
        rw [downloadRepositoryM_keys]
        exact hkey
  · cases k with
    | file =>
      have hkey : authConfigKey ∉ w.configKeys := by
        intro hmem
        have h := (hcons hmem).1
        rw [hpk] at h
        cases h
      cases hrm : env.rmRFOk s.repositoryPath with
      | true =>
        rw [getSource_file_rm_run env s w hpk hrm] at hscope ⊢
        cases hcm : env.createCMOk s.lfs with
        | true =>
          rw [sourceTail_gateway env s _ hcm]
          exact gatewayFlow_endsAbsent env s (repoUrl s) hp hu _
        | false =>
          cases hlfs : s.lfs with
          | true =>
            rw [sourceTail_createFailed env s _ hcm hlfs] at hscope
            rcases hscope with h | h | ⟨n, h⟩ <;> cases h
          | false =>
            rw [sourceTail_download env s _ hcm hlfs]
            rw [downloadRepositoryM_keys]
            simp
      | false =>
        rw [getSource_file_rmfail_run env s w hpk hrm] at hscope
        rcases hscope with h | h | ⟨n, h⟩ <;> cases h
    | dir =>
      have hkeydir : authConfigKey ∈ w.configKeys → ".git" ∈ w.entries :=
        fun h => (hcons h).2
      rw [getSource_dir_run env s w hpk] at hscope ⊢
      cases hcm : env.createCMOk s.lfs with
      | true =>
        rw [sourceTailExisting_gateway env s w hcm] at hscope ⊢
        rw [M.bind_def] at hscope ⊢
        rcases hprep : prepareExistingDirectory env true s.repositoryPath (repoUrl s)
          s.clean w with ⟨rp0, w1⟩
        cases rp0 with
        | ok a =>
          try dsimp only at hscope ⊢
          exact gatewayFlow_endsAbsent env s (repoUrl s) hp hu w1
        | error e =>
          rw [hprep] at hscope
          obtain ⟨p, hep⟩ := prepare_err env true s.repositoryPath (repoUrl s) s.clean w e
            (by rw [hprep])
          subst hep
          rcases hscope with h | h | ⟨n, h⟩ <;> (try dsimp only at h) <;> cases h
      | false =>
        cases hlfs : s.lfs with
        | true =>
          rw [sourceTailExisting_createFailed env s w hcm hlfs] at hscope
          rcases hscope with h | h | ⟨n, h⟩ <;> cases h
        | false =>
          rw [sourceTailExisting_download env s w hcm hlfs] at hscope ⊢
          rw [M.bind_def] at hscope ⊢
          rcases hprep : prepareExistingDirectory env false s.repositoryPath (repoUrl s)
            s.clean w with ⟨rp0, w1⟩
          cases rp0 with
          | ok a =>
            try dsimp only at hscope ⊢
            have hclear := prepare_unavail_clearKey env s.repositoryPath (repoUrl s)
              s.clean w (by rw [hprep]) hkeydir
            rw [hprep] at hclear
            rw [downloadRepositoryM_keys]
            exact hclear
          | error e =>
            rw [hprep] at hscope
            obtain ⟨p, hep⟩ := prepare_err env false s.repositoryPath (repoUrl s) s.clean w e
              (by rw [hprep])
            subst hep
            rcases hscope with h | h | ⟨n, h⟩ <;> (try dsimp only at h) <;> cases h

theorem claim_C1_witness :
    (baseSettings.persistCredentials = false ∧ baseEnv.tryConfigUnsetOk = true ∧
      (authConfigKey ∈ repoWorld.configKeys →
        repoWorld.pathKind = some FsKind.dir ∧ ".git" ∈ repoWorld.entries)) ∧
    (getSource baseEnv baseSettings repoWorld).1 = Except.ok () ∧
    authConfigKey ∉ (getSource baseEnv baseSettings repoWorld).2.configKeys := by
  refine ⟨⟨rfl, rfl, fun h => by simp [repoWorld] at h⟩, rfl, ?_⟩
  exact claim_C1 baseEnv baseSettings repoWorld rfl rfl
    (fun h => by simp [repoWorld] at h) (Or.inl rfl)

end Checkout
